import Mathlib

/-!
Verification of the oecophylla QC pipeline fragment (src/oecophylla/qc/qc.py).

The file embeds the four Snakemake rules of qc.py at two levels:

* a filesystem level: paths are component lists, a filesystem is an
  association list from paths to nodes, and each rule's run body is a list
  of shell commands (the exact commands of the rule, in their source order)
  interpreted over the filesystem with external tools treated as oracles;

* a SAM-record level for the filtering pipe of qc_filter: the
  samtools view -f 12 -F 256 flag filter, the samtools sort -n name sort
  and the bedtools bamtofastq pair extraction are modelled on lists of SAM
  records.
-/

namespace Oecophylla

/-! ## Filesystem model

A path is its list of components (the slash-separated pieces of the path
templates in qc.py).  A filesystem node is a regular file with string
content, a symbolic link to a target path, or a directory.  A filesystem is
an association list from paths to nodes; `fsSet` overwrites. -/

abbrev Path := List String

inductive FNode where
  | file (content : String)
  | symlink (target : Path)
  | dir
deriving DecidableEq, Repr

abbrev FS := List (Path × FNode)

def fsGet (fs : FS) (p : Path) : Option FNode :=
  (fs.find? (fun e => e.1 == p)).map (fun e => e.2)

def fsSet (fs : FS) (p : Path) (n : FNode) : FS :=
  (p, n) :: fs.filter (fun e => !(e.1 == p))

/-- Reading a file resolves a symbolic link one hop (the only links the
pipeline creates point at regular files installed by scp). -/
def readFile (fs : FS) (p : Path) : Option String :=
  match fsGet fs p with
  | some (.file c) => some c
  | some (.symlink t) =>
    match fsGet fs t with
    | some (.file c) => some c
    | _ => none
  | _ => none

/-- Removal of a directory tree: drops every path at or below the root,
as the exit of a TemporaryDirectory context does. -/
def rmTree (fs : FS) (root : Path) : FS :=
  fs.filter (fun e => !(root.isPrefixOf e.1))

/-- All entries whose path lies under one of the given directories; this is
what a directory-scanning tool (multiqc over its target directories) reads. -/
def fsScan (fs : FS) (dirs : List Path) : FS :=
  fs.filter (fun e => dirs.any (fun d => d.isPrefixOf e.1))

theorem fsGet_set_same (fs : FS) (p : Path) (n : FNode) :
    fsGet (fsSet fs p n) p = some n := by
  simp [fsGet, fsSet, List.find?_cons]

theorem find?_filter_keep {fs : FS} {q p : Path} (h : q ≠ p) :
    List.find? (fun e => e.1 == q) (fs.filter (fun e => !(e.1 == p))) =
      List.find? (fun e => e.1 == q) fs := by
  induction fs with
  | nil => rfl
  | cons a t ih =>
    by_cases hq : a.1 = q
    · have h1 : (a.1 == q) = true := by simp [hq]
      have h2 : (a.1 == p) = false := by simp [hq]; exact h
      simp [List.filter_cons, h2, List.find?_cons, h1]
    · have h1 : (a.1 == q) = false := by simp [hq]
      by_cases hp : a.1 = p
      · have h2 : (a.1 == p) = true := by simp [hp]
        simp [List.filter_cons, h2, List.find?_cons, h1, ih]
      · have h2 : (a.1 == p) = false := by simp [hp]
        simp [List.filter_cons, h2, List.find?_cons, h1, ih]

theorem fsGet_set_ne {q p : Path} (fs : FS) (n : FNode) (h : q ≠ p) :
    fsGet (fsSet fs p n) q = fsGet fs q := by
  have h1 : (p == q) = false := by simp; exact fun he => h he.symm
  simp [fsGet, fsSet, List.find?_cons, h1, find?_filter_keep h]

theorem fsGet_rmTree_of_under {fs : FS} {root p : Path} (h : root.isPrefixOf p) :
    fsGet (rmTree fs root) p = none := by
  simp only [fsGet, rmTree]
  rw [List.find?_eq_none.mpr]
  · rfl
  · intro e he
    have hmem := List.of_mem_filter he
    simp only [Bool.not_eq_true'] at hmem
    intro hq
    apply absurd hmem
    simp only [beq_iff_eq] at hq
    simp [hq, h]

/-! ## Shell commands and their semantics

Each rule's run body is a `shell(...)` block; we represent it as the list
of its commands.  External tools are black boxes: a `ToolEnv` oracle gives,
for each tool invocation, whether it exits zero and what bytes it writes to
each of its output files (as a function of the contents it read).  Snakemake
runs shell blocks in strict mode, so execution stops at the first failing
command. -/

structure ToolEnv where
  out : String → List (Option String) → Path → String
  exitOk : String → List (Option String) → Bool
  scanOut : String → FS → Path → String
  scanExitOk : String → FS → Bool

inductive Cmd where
  /-- an external tool invocation reading the given files and writing the
  given files (in-place at those paths) -/
  | toolRun (tool : String) (reads : List Path) (writes : List Path)
  /-- an external tool invocation that scans whole directories (multiqc) -/
  | toolScan (tool : String) (dirs : List Path) (writes : List Path)
  /-- scp src dest: copy one complete file -/
  | scp (src dest : Path)
  /-- ln -s target dest: fails if dest already exists (no -f) -/
  | lnS (target dest : Path)
  /-- echo content > dest -/
  | echo (content : String) (dest : Path)
deriving DecidableEq, Repr

def runCmd (env : ToolEnv) (fs : FS) : Cmd → FS × Option String
  | .toolRun tool rds wrs =>
    let ins := rds.map (readFile fs)
    if env.exitOk tool ins then
      (wrs.foldl (fun acc w => fsSet acc w (.file (env.out tool ins w))) fs, none)
    else
      (fs, some (tool ++ ": non-zero exit"))
  | .toolScan tool dirs wrs =>
    let ins := fsScan fs dirs
    if env.scanExitOk tool ins then
      (wrs.foldl (fun acc w => fsSet acc w (.file (env.scanOut tool ins w))) fs, none)
    else
      (fs, some (tool ++ ": non-zero exit"))
  | .scp src dest =>
    match readFile fs src with
    | some c => (fsSet fs dest (.file c), none)
    | none => (fs, some "scp: no such file or directory")
  | .lnS target dest =>
    match fsGet fs dest with
    | some _ => (fs, some "ln: failed to create symbolic link: File exists")
    | none => (fsSet fs dest (.symlink target), none)
  | .echo content dest => (fsSet fs dest (.file (content ++ "\n")), none)

def runCmds (env : ToolEnv) : List Cmd → FS → FS × Option String
  | [], fs => (fs, none)
  | c :: cs, fs =>
    match runCmd env fs c with
    | (fs1, none) => runCmds env cs fs1
    | (fs1, some e) => (fs1, some e)

/-- with tempfile.TemporaryDirectory(...) as temp_dir: the directory is
created, the body runs, and the directory tree is removed on exit of the
context manager whether or not the body raised. -/
def withTmp (env : ToolEnv) (tmpDir : Path) (script : Path → List Cmd) (fs : FS) :
    FS × Option String :=
  let res := runCmds env (script tmpDir) (fsSet fs tmpDir .dir)
  (rmTree res.1 tmpDir, res.2)

/-! ## Path templates of qc.py

Paths are parameterised by the qc output root (qc_dir), the raw input root
(raw_dir) and the configured trimmer name, with one component per
slash-separated piece of the templates in the source. -/

def rawForward (rawRoot : Path) (s : String) : Path :=
  rawRoot ++ [s, "combined_reads", s ++ ".R1.fastq.gz"]

def rawReverse (rawRoot : Path) (s : String) : Path :=
  rawRoot ++ [s, "combined_reads", s ++ ".R2.fastq.gz"]

def trimmedForward (qcRoot : Path) (trim s : String) : Path :=
  qcRoot ++ [s, trim ++ "_trimmed", s ++ ".trimmed.R1.fastq.gz"]

def trimmedReverse (qcRoot : Path) (trim s : String) : Path :=
  qcRoot ++ [s, trim ++ "_trimmed", s ++ ".trimmed.R2.fastq.gz"]

def filteredForward (qcRoot : Path) (s : String) : Path :=
  qcRoot ++ [s, "filtered", s ++ ".R1.trimmed.filtered.fastq.gz"]

def filteredReverse (qcRoot : Path) (s : String) : Path :=
  qcRoot ++ [s, "filtered", s ++ ".R2.trimmed.filtered.fastq.gz"]

def atroposLog (qcRoot : Path) (s : String) : Path :=
  qcRoot ++ ["logs", "qc_atropos.sample=[" ++ s ++ "].log"]

def filterLogBowtie (qcRoot : Path) (s : String) : Path :=
  qcRoot ++ ["logs", "qc_filter.bowtie.sample=[" ++ s ++ "].log"]

def filterLogOther (qcRoot : Path) (s : String) : Path :=
  qcRoot ++ ["logs", "qc_filter.other.sample=[" ++ s ++ "].log"]

def fastqcDir (qcRoot : Path) (s : String) : Path :=
  qcRoot ++ [s, "fastqc_per_sample"]

def fastqcLog (qcRoot : Path) (s : String) : Path :=
  qcRoot ++ ["logs", "qc_per_sample_fastqc.sample=[" ++ s ++ "].log"]

def multiqcReport (qcRoot : Path) : Path :=
  qcRoot ++ ["multiQC_per_sample", "multiqc_report.html"]

def multiqcLog (qcRoot : Path) : Path :=
  qcRoot ++ ["logs", "qc_per_sample_multiqc.log"]

/-- The stem fastqc derives report names from: the input basename with its
".fastq.gz" ending (9 characters) removed. -/
def stripFastqGz (b : String) : String :=
  String.mk (b.data.take (b.data.length - 9))

def fastqcHtmlFor (qcRoot : Path) (s : String) (input : Path) : Path :=
  fastqcDir qcRoot s ++ [stripFastqGz (input.getLastD "") ++ "_fastqc.html"]

def fastqcZipFor (qcRoot : Path) (s : String) (input : Path) : Path :=
  fastqcDir qcRoot s ++ [stripFastqGz (input.getLastD "") ++ "_fastqc.zip"]

/-! ## Rule run bodies

Each definition below is the shell block of one rule of qc.py, command by
command, in source order. -/

/-- The scratch copy of the forward trimmed file: temp_dir/basename of the
forward output. -/
def atroposTmpF (tmpDir : Path) (s : String) : Path :=
  tmpDir ++ [s ++ ".trimmed.R1.fastq.gz"]

/-- The scratch copy of the reverse trimmed file. -/
def atroposTmpR (tmpDir : Path) (s : String) : Path :=
  tmpDir ++ [s ++ ".trimmed.R2.fastq.gz"]

/-- rule qc_atropos: atropos reads the two raw files, writes the trimmed
pair into the scratch directory (basenames of the outputs) and its report
to the log; then scp installs each trimmed file at its final path. -/
def atroposCmds (qcRoot rawRoot : Path) (trim s : String) (tmpDir : Path) : List Cmd :=
  [ .toolRun "atropos" [rawForward rawRoot s, rawReverse rawRoot s]
      [ atroposTmpF tmpDir s, atroposTmpR tmpDir s, atroposLog qcRoot s ],
    .scp (atroposTmpF tmpDir s) (trimmedForward qcRoot trim s),
    .scp (atroposTmpR tmpDir s) (trimmedReverse qcRoot trim s) ]

/-- rule qc_filter, branch params.filter_db is None: symlink each output to
the absolute path of the trimmed input, then echo the not-filtered notice
into both logs. -/
def qcFilterPassCmds (qcRoot : Path) (trim s : String) : List Cmd :=
  [ .lnS (trimmedForward qcRoot trim s) (filteredForward qcRoot s),
    .lnS (trimmedReverse qcRoot trim s) (filteredReverse qcRoot s),
    .echo "No DB provided; sample not filtered." (filterLogBowtie qcRoot s),
    .echo "No DB provided; sample not filtered." (filterLogOther qcRoot s) ]

/-- rule qc_filter, branch with a database: the
bowtie2 | samtools view -f 12 -F 256 | samtools sort -n | samtools view -bS
| bedtools bamtofastq pipe reads the trimmed pair and writes the two
filtered fastqs into scratch (bowtie2 stderr to the bowtie log, the other
tools' stderr to the other log); pigz compresses each inside scratch; scp
installs each compressed file at its final path.  The record-level
semantics of the pipe is `qcFilterPipe` below. -/
def qcFilterDbCmds (qcRoot : Path) (trim s : String) (tmpDir : Path) : List Cmd :=
  [ .toolRun "bowtie2-samtools-bedtools" [trimmedForward qcRoot trim s, trimmedReverse qcRoot trim s]
      [ tmpDir ++ [s ++ ".R1.trimmed.filtered.fastq"],
        tmpDir ++ [s ++ ".R2.trimmed.filtered.fastq"],
        filterLogBowtie qcRoot s,
        filterLogOther qcRoot s ],
    .toolRun "pigz" [tmpDir ++ [s ++ ".R1.trimmed.filtered.fastq"]]
      [tmpDir ++ [s ++ ".R1.trimmed.filtered.fastq.gz"]],
    .toolRun "pigz" [tmpDir ++ [s ++ ".R2.trimmed.filtered.fastq"]]
      [tmpDir ++ [s ++ ".R2.trimmed.filtered.fastq.gz"]],
    .scp (tmpDir ++ [s ++ ".R1.trimmed.filtered.fastq.gz"]) (filteredForward qcRoot s),
    .scp (tmpDir ++ [s ++ ".R2.trimmed.filtered.fastq.gz"]) (filteredReverse qcRoot s) ]

/-- rule qc_per_sample_fastqc: fastqc reads both filtered files and writes,
directly into the final output directory (out_dir = dirname(output[0])),
one html and one zip per input file, plus its stderr to the log. -/
def fastqcCmds (qcRoot : Path) (s : String) : List Cmd :=
  [ .toolRun "fastqc" [filteredForward qcRoot s, filteredReverse qcRoot s]
      [ fastqcHtmlFor qcRoot s (filteredForward qcRoot s),
        fastqcZipFor qcRoot s (filteredForward qcRoot s),
        fastqcHtmlFor qcRoot s (filteredReverse qcRoot s),
        fastqcZipFor qcRoot s (filteredReverse qcRoot s),
        fastqcLog qcRoot s ] ]

/-- rule qc_per_sample_multiqc: multiqc -f -s scans every sample's
fastqc_per_sample directory and the logs directory, and writes the combined
report directly into the final output directory (-o out_dir), plus its
stderr to the log. -/
def multiqcScanDirs (qcRoot : Path) (samples : List String) : List Path :=
  samples.map (fastqcDir qcRoot) ++ [qcRoot ++ ["logs"]]

def multiqcCmds (qcRoot : Path) (samples : List String) : List Cmd :=
  [ .toolScan "multiqc" (multiqcScanDirs qcRoot samples)
      [multiqcReport qcRoot, multiqcLog qcRoot] ]

/-! ## Per-sample configuration (qc_filter's params)

config['samples'][wildcards.sample]['filter_db'] is a chain of Python dict
lookups; a missing key raises KeyError.  The filter_db value itself is
either None or a database path. -/

abbrev SampleCfg := List (String × Option String)

abbrev SamplesCfg := List (String × SampleCfg)

def dictGet {α : Type} (d : List (String × α)) (k : String) : Except String α :=
  match d.find? (fun e => e.1 == k) with
  | some e => .ok e.2
  | none => .error ("KeyError: " ++ k)

/-- params.filter_db = config['samples'][wildcards.sample]['filter_db']:
the outer lookup may raise, then the inner lookup may raise. -/
def filterDbParam (cfg : SamplesCfg) (s : String) : Except String (Option String) :=
  match dictGet cfg s with
  | .error e => .error e
  | .ok sc => dictGet sc "filter_db"

inductive FilterBranch where
  | passThrough
  | filterWith (db : String)
deriving DecidableEq, Repr

/-- The branch the run body of qc_filter takes: evaluating params.filter_db
may raise (task failure); otherwise the body tests whether it is None. -/
def qcFilterBranch (cfg : SamplesCfg) (s : String) : Except String FilterBranch :=
  match filterDbParam cfg s with
  | .error e => .error e
  | .ok none => .ok .passThrough
  | .ok (some db) => .ok (.filterWith db)

/-! ## Whole tasks (run bodies with their scratch context) -/

def qcAtroposTask (env : ToolEnv) (qcRoot rawRoot : Path) (trim s : String)
    (tmpDir : Path) (fs : FS) : FS × Option String :=
  withTmp env tmpDir (atroposCmds qcRoot rawRoot trim s) fs

def qcFilterTask (env : ToolEnv) (cfg : SamplesCfg) (qcRoot : Path) (trim s : String)
    (tmpDir : Path) (fs : FS) : FS × Option String :=
  match qcFilterBranch cfg s with
  | .error e => (fs, some e)
  | .ok .passThrough => runCmds env (qcFilterPassCmds qcRoot trim s) fs
  | .ok (.filterWith _) => withTmp env tmpDir (qcFilterDbCmds qcRoot trim s) fs

def qcFastqcTask (env : ToolEnv) (qcRoot : Path) (s : String) (fs : FS) :
    FS × Option String :=
  runCmds env (fastqcCmds qcRoot s) fs

def qcMultiqcTask (env : ToolEnv) (qcRoot : Path) (samples : List String) (fs : FS) :
    FS × Option String :=
  runCmds env (multiqcCmds qcRoot samples) fs

/-! ## Declared inputs and outputs of the rules -/

def atroposOutputs (qcRoot : Path) (trim s : String) : List Path :=
  [trimmedForward qcRoot trim s, trimmedReverse qcRoot trim s]

def qcFilterOutputs (qcRoot : Path) (s : String) : List Path :=
  [filteredForward qcRoot s, filteredReverse qcRoot s]

/-- rule qc_per_sample_fastqc declares as html output the R1 report and as
zip output the R2 archive (qc.py lines 104-105). -/
def fastqcOutputs (qcRoot : Path) (s : String) : List Path :=
  [ qcRoot ++ [s, "fastqc_per_sample", s ++ ".R1.trimmed.filtered_fastqc.html"],
    qcRoot ++ [s, "fastqc_per_sample", s ++ ".R2.trimmed.filtered_fastqc.zip"] ]

def multiqcOutputs (qcRoot : Path) : List Path :=
  [multiqcReport qcRoot]

/-- rule qc_per_sample_multiqc's declared input: the expand over all
samples of the per-sample R2 fastqc zip. -/
def multiqcInputs (qcRoot : Path) (samples : List String) : List Path :=
  samples.map (fun s => qcRoot ++ [s, "fastqc_per_sample", s ++ ".R2.trimmed.filtered_fastqc.zip"])

/-! ## SAM-record level model of the filtering pipe (qc.py lines 82-86)

A SAM record is a read name, the integer FLAG field and the read data.
Flag bits (SAM specification): 0x4 read unmapped, 0x8 mate unmapped,
0x40 first in pair, 0x80 second in pair, 0x100 secondary alignment. -/

structure SamRecord where
  qname : String
  flag : Nat
  seq : String
deriving DecidableEq, Repr

def readUnmapped (r : SamRecord) : Bool := r.flag &&& 4 == 4

def mateUnmapped (r : SamRecord) : Bool := r.flag &&& 8 == 8

def isSecondary (r : SamRecord) : Bool := r.flag &&& 256 == 256

/-- samtools view -f 12 -F 256 keeps a record iff all the bits of 12 are
set in FLAG and none of the bits of 256 are. -/
def samKeep (r : SamRecord) : Bool :=
  (r.flag &&& 12 == 12) && (r.flag &&& 256 == 0)

def samtoolsView_f12_F256 (recs : List SamRecord) : List SamRecord :=
  recs.filter samKeep

/-- Name order on records, by the character data of the read names. -/
def nameLe (a b : SamRecord) : Prop := a.qname.data ≤ b.qname.data

instance : DecidableRel nameLe := fun a b => by
  unfold nameLe; infer_instance

instance : IsTotal SamRecord nameLe := ⟨fun a b => le_total a.qname.data b.qname.data⟩

instance : IsTrans SamRecord nameLe := ⟨fun _ _ _ h1 h2 => le_trans h1 h2⟩

/-- samtools sort -n: sort the records by read name. -/
def samtoolsSortN (recs : List SamRecord) : List SamRecord :=
  List.insertionSort nameLe recs

/-- bedtools bamtofastq -i - -fq f -fq2 f2 on a name-sorted stream: reads
records two at a time; when the two names agree the first record's read
goes to -fq and the second's to -fq2, otherwise the first record's mate
does not occur next to it, a warning is printed, the record is dropped and
scanning resumes from the second. -/
def bamtofastq : List SamRecord → List SamRecord × List SamRecord
  | [] => ([], [])
  | [_] => ([], [])
  | a :: b :: rest =>
    if a.qname = b.qname then
      let res := bamtofastq rest
      (a :: res.1, b :: res.2)
    else
      bamtofastq (b :: rest)

/-- The record-level pipe of qc_filter's database branch: flag filter, then
name sort, then pair extraction to the two fastq streams (samtools view
-bS and pigz are format and compression steps, identity on the record
sequence). -/
def qcFilterPipe (recs : List SamRecord) : List SamRecord × List SamRecord :=
  bamtofastq (samtoolsSortN (samtoolsView_f12_F256 recs))

/-! ## Scheduler model for the rule dependency graph

Modelled from the spec: the workflow engine that executes the rule graph is
external to this repository.  Per the spec's ordering guarantees, a task
cannot start before its declared inputs exist, and a file exists only if it
was part of the initial filesystem or was produced as a declared output of
an earlier task.  A schedule is the sequence of task executions. -/

inductive PipeTask where
  | atropos (s : String)
  | qcfilter (s : String)
  | fastqc (s : String)
  | multiqc
deriving DecidableEq, Repr

def taskInputs (qcRoot rawRoot : Path) (trim : String) (samples : List String) :
    PipeTask → List Path
  | .atropos s => [rawForward rawRoot s, rawReverse rawRoot s]
  | .qcfilter s => [trimmedForward qcRoot trim s, trimmedReverse qcRoot trim s]
  | .fastqc s => [filteredForward qcRoot s, filteredReverse qcRoot s]
  | .multiqc => multiqcInputs qcRoot samples

def taskOutputs (qcRoot : Path) (trim : String) : PipeTask → List Path
  | .atropos s => atroposOutputs qcRoot trim s
  | .qcfilter s => qcFilterOutputs qcRoot s
  | .fastqc s => fastqcOutputs qcRoot s
  | .multiqc => multiqcOutputs qcRoot

/-- The set of paths produced by a prefix of the schedule. -/
def producedBy (qcRoot : Path) (trim : String) (evts : List PipeTask) : List Path :=
  evts.flatMap (taskOutputs qcRoot trim)

/-- Modelled from the spec: a schedule is valid when every task's declared
inputs all exist when it starts, i.e. each is initial or a declared output
of a strictly earlier task. -/
def validSchedule (qcRoot rawRoot : Path) (trim : String) (samples : List String)
    (initial : List Path) (evts : List PipeTask) : Bool :=
  (List.range evts.length).all (fun i =>
    (taskInputs qcRoot rawRoot trim samples (evts.getD i .multiqc)).all (fun p =>
      initial.contains p || (producedBy qcRoot trim (evts.take i)).contains p))

/-- A path exists at step t of a schedule iff it was initial or produced by
the first t tasks. -/
def existsAt (qcRoot : Path) (trim : String) (initial : List Path)
    (evts : List PipeTask) (t : Nat) (p : Path) : Bool :=
  initial.contains p || (producedBy qcRoot trim (evts.take t)).contains p

/-! ## Helper lemmas about paths -/

theorem str_append_ne (s : String) {X Y : String} (h : X ≠ Y) : s ++ X ≠ s ++ Y := by
  intro he
  apply h
  apply String.ext
  have h2 := congrArg String.data he
  rw [String.data_append, String.data_append] at h2
  exact List.append_cancel_left h2

theorem list_append_ne {A B x y : List Char} {i : Nat}
    (hiA : i < A.length) (hiB : i < B.length) (hne : A[i]? ≠ B[i]?) :
    A ++ x ≠ B ++ y := by
  intro he
  apply hne
  have hA : (A ++ x)[i]? = A[i]? := by rw [List.getElem?_append]; simp [hiA]
  have hB : (B ++ y)[i]? = B[i]? := by rw [List.getElem?_append]; simp [hiB]
  rw [← hA, ← hB, he]

/-- Two concatenations differ when their concrete leading literals differ at
some character index. -/
theorem str_append3_ne (A B s t u v : String) {i : Nat}
    (hiA : i < A.data.length) (hiB : i < B.data.length)
    (hne : A.data[i]? ≠ B.data[i]?) :
    A ++ s ++ t ≠ B ++ u ++ v := by
  intro he
  have h2 := congrArg String.data he
  simp only [String.data_append, List.append_assoc] at h2
  exact list_append_ne hiA hiB hne h2

theorem path_ne_of_len {root A B : Path} (h : A.length ≠ B.length) :
    root ++ A ≠ root ++ B := by
  intro he
  apply h
  have := congrArg List.length he
  simp only [List.length_append] at this
  omega

theorem path_ne_of_comp {root A B : Path} (h : A ≠ B) : root ++ A ≠ root ++ B :=
  fun he => h (List.append_cancel_left he)

theorem filteredForward_ne_filteredReverse (qcRoot : Path) (s : String) :
    filteredForward qcRoot s ≠ filteredReverse qcRoot s := by
  apply path_ne_of_comp
  simp only [List.cons_eq_cons, ne_eq]
  intro h
  exact str_append_ne s (by decide) h.2.2.1

theorem trimmedForward_ne_trimmedReverse (qcRoot : Path) (trim s : String) :
    trimmedForward qcRoot trim s ≠ trimmedReverse qcRoot trim s := by
  apply path_ne_of_comp
  simp only [List.cons_eq_cons, ne_eq]
  intro h
  exact str_append_ne s (by decide) h.2.2.1

theorem trimmed_ne_filtered (qcRoot : Path) (trim s : String) {X Y : String}
    (hX : X = ".trimmed.R1.fastq.gz" ∨ X = ".trimmed.R2.fastq.gz")
    (hY : Y = ".R1.trimmed.filtered.fastq.gz" ∨ Y = ".R2.trimmed.filtered.fastq.gz")
    {b : String} :
    qcRoot ++ [s, trim ++ "_trimmed", s ++ X] ≠ qcRoot ++ [s, b, s ++ Y] := by
  apply path_ne_of_comp
  simp only [List.cons_eq_cons, ne_eq]
  intro h
  apply str_append_ne s (X := X) (Y := Y) _ h.2.2.1
  rcases hX with hX | hX <;> rcases hY with hY | hY <;> subst hX <;> subst hY <;> decide

theorem filterLogBowtie_ne_filterLogOther (qcRoot : Path) (s : String) :
    filterLogBowtie qcRoot s ≠ filterLogOther qcRoot s := by
  apply path_ne_of_comp
  simp only [List.cons_eq_cons, ne_eq]
  intro h
  have h2 := h.2.1
  exact str_append3_ne "qc_filter.bowtie.sample=[" "qc_filter.other.sample=[" s "].log" s "].log"
    (i := 10) (by decide) (by decide) (by decide) h2

/-! ## Supporting lemmas for the record-level pipe -/

theorem bamtofastq_mem {l : List SamRecord} {r : SamRecord}
    (h : r ∈ (bamtofastq l).1 ∨ r ∈ (bamtofastq l).2) : r ∈ l := by
  induction l using bamtofastq.induct with
  | case1 => simp [bamtofastq] at h
  | case2 a => simp [bamtofastq] at h
  | case3 a b rest heq ih =>
    simp only [bamtofastq, if_pos heq] at h
    rcases h with h | h <;> rcases List.mem_cons.mp h with h2 | h2
    · simp [h2]
    · have := ih (Or.inl h2); simp [this]
    · simp [h2]
    · have := ih (Or.inr h2); simp [this]
  | case4 a b rest hne ih =>
    simp only [bamtofastq, if_neg hne] at h
    have := ih h
    exact List.mem_cons_of_mem a this

theorem samtoolsSortN_perm (l : List SamRecord) : (samtoolsSortN l).Perm l :=
  List.perm_insertionSort nameLe l

theorem samKeep_split {r : SamRecord} (h : samKeep r = true) :
    readUnmapped r = true ∧ mateUnmapped r = true ∧ isSecondary r = false := by
  unfold samKeep at h
  rw [Bool.and_eq_true] at h
  obtain ⟨h12, h256⟩ := h
  rw [beq_iff_eq] at h12 h256
  refine ⟨?_, ?_, ?_⟩
  · unfold readUnmapped
    have h4 : r.flag &&& 12 &&& 4 = 12 &&& 4 := by rw [h12]
    rw [Nat.land_assoc] at h4
    have e4 : (12 &&& 4 : Nat) = 4 := by decide
    rw [e4] at h4
    simp [h4]
  · unfold mateUnmapped
    have h8 : r.flag &&& 12 &&& 8 = 12 &&& 8 := by rw [h12]
    rw [Nat.land_assoc] at h8
    have e8 : (12 &&& 8 : Nat) = 8 := by decide
    rw [e8] at h8
    simp [h8]
  · unfold isSecondary
    simp [h256]

/-- C1: for every sample with a configured filter database, every read
pair present in the filter-stage forward/reverse outputs of qc_filter is a
pair where neither mate was flagged as mapped in the alignment step: each
record that reaches either output stream came from the alignment output and
has the read-unmapped and mate-unmapped flags set and the
secondary-alignment flag clear (the samtools view -f 12 -F 256 filter). -/
theorem claim_C1_unmapped_pairs_only (recs : List SamRecord) (r : SamRecord)
    (h : r ∈ (qcFilterPipe recs).1 ∨ r ∈ (qcFilterPipe recs).2) :
    r ∈ recs ∧ readUnmapped r = true ∧ mateUnmapped r = true ∧ isSecondary r = false := by
  have h1 : r ∈ samtoolsSortN (samtoolsView_f12_F256 recs) := bamtofastq_mem h
  have h2 : r ∈ samtoolsView_f12_F256 recs := (samtoolsSortN_perm _).mem_iff.mp h1
  have h3 := List.mem_filter.mp h2
  exact ⟨h3.1, samKeep_split h3.2⟩

/-- Witness for C1 at a concrete alignment output: a fully unmapped pair
(flags 77/141) and a mapped pair (flags 99/147); the record with flag 77
reaches the forward output and satisfies the unmapped-pair criterion. -/
theorem claim_C1_witness :
    (⟨"p2", 77, "ACGT"⟩ : SamRecord) ∈
        (qcFilterPipe
          [⟨"p1", 99, "AAAA"⟩, ⟨"p1", 147, "CCCC"⟩,
           ⟨"p2", 77, "ACGT"⟩, ⟨"p2", 141, "GGGG"⟩]).1 ∧
      readUnmapped ⟨"p2", 77, "ACGT"⟩ = true ∧
      mateUnmapped ⟨"p2", 77, "ACGT"⟩ = true ∧
      isSecondary ⟨"p2", 77, "ACGT"⟩ = false := by
  have hmem : (⟨"p2", 77, "ACGT"⟩ : SamRecord) ∈
      (qcFilterPipe
        [⟨"p1", 99, "AAAA"⟩, ⟨"p1", 147, "CCCC"⟩,
         ⟨"p2", 77, "ACGT"⟩, ⟨"p2", 141, "GGGG"⟩]).1 := by decide
  have h := claim_C1_unmapped_pairs_only _ _ (Or.inl hmem)
  exact ⟨hmem, h.2⟩

/-- C10: the pass-through branch of qc_filter is taken exactly when the
configuration lookup config['samples'][sample]['filter_db'] succeeds with
the value None; when the sample or its filter_db key is missing the lookup
raises a KeyError, the task fails, and the pass-through branch is not
taken. -/
theorem claim_C10_config_lookup (cfg : SamplesCfg) (s : String) :
    (qcFilterBranch cfg s = .ok .passThrough ↔ filterDbParam cfg s = .ok none) ∧
      (∀ e, filterDbParam cfg s = .error e → qcFilterBranch cfg s = .error e) ∧
      (cfg.find? (fun e => e.1 == s) = none →
        qcFilterBranch cfg s = .error ("KeyError: " ++ s)) ∧
      (∀ sc, dictGet cfg s = .ok sc → sc.find? (fun e => e.1 == "filter_db") = none →
        qcFilterBranch cfg s = .error ("KeyError: " ++ "filter_db")) := by
  refine ⟨⟨?_, ?_⟩, ?_, ?_, ?_⟩
  · intro h
    rcases hd : filterDbParam cfg s with e | v
    · simp [qcFilterBranch, hd] at h
    · rcases v with _ | db
      · rfl
      · simp [qcFilterBranch, hd] at h
  · intro h
    simp [qcFilterBranch, h]
  · intro e h
    simp [qcFilterBranch, h]
  · intro h
    have hd : filterDbParam cfg s = .error ("KeyError: " ++ s) := by
      simp [filterDbParam, dictGet, h]
    simp [qcFilterBranch, hd]
  · intro sc hsc h
    have hd : filterDbParam cfg s = .error ("KeyError: " ++ "filter_db") := by
      simp only [filterDbParam, hsc]
      simp [dictGet, h]
    simp [qcFilterBranch, hd]

/-- Witness for C10 at concrete configurations: with filter_db set to None
the branch is pass-through; with the filter_db key absent, and with the
sample absent, the lookup fails with a KeyError. -/
theorem claim_C10_witness :
    qcFilterBranch [("S1", [("filter_db", none)])] "S1" = .ok .passThrough ∧
      qcFilterBranch [("S1", [("other_key", some "x")])] "S1" =
        .error ("KeyError: " ++ "filter_db") ∧
      qcFilterBranch [] "S1" = .error ("KeyError: " ++ "S1") := by
  refine ⟨?_, ?_, ?_⟩
  · exact (claim_C10_config_lookup [("S1", [("filter_db", none)])] "S1").1.mpr (by rfl)
  · exact (claim_C10_config_lookup [("S1", [("other_key", some "x")])] "S1").2.2.2
      [("other_key", some "x")] (by rfl) (by rfl)
  · exact (claim_C10_config_lookup [] "S1").2.2.1 (by rfl)

/-- C7: every task invocation that creates a scratch workspace (qc_atropos,
and the database branch of qc_filter) destroys it at task end on every exit
path: whatever the tool oracle does (success or non-zero exit), no path
under the scratch directory remains in the resulting filesystem. -/
theorem claim_C7_scratch_cleanup (env : ToolEnv) (cfg : SamplesCfg)
    (qcRoot rawRoot tmpDir : Path) (trim s : String) (fs : FS) (p : Path)
    (hp : tmpDir.isPrefixOf p) :
    fsGet (qcAtroposTask env qcRoot rawRoot trim s tmpDir fs).1 p = none ∧
      (∀ db, qcFilterBranch cfg s = .ok (.filterWith db) →
        fsGet (qcFilterTask env cfg qcRoot trim s tmpDir fs).1 p = none) := by
  constructor
  · unfold qcAtroposTask withTmp
    exact fsGet_rmTree_of_under hp
  · intro db hdb
    unfold qcFilterTask
    rw [hdb]
    unfold withTmp
    exact fsGet_rmTree_of_under hp

/-- Witness for C7: with a tool oracle that always fails and one that
always succeeds, a concrete scratch path is absent from the resulting
filesystem of qc_atropos and of qc_filter's database branch. -/
theorem claim_C7_witness :
    (fsGet (qcAtroposTask
        ⟨fun _ _ _ => "", fun _ _ => false, fun _ _ _ => "", fun _ _ => false⟩
        ["qc"] ["raw"] "atropos" "S1" ["tmp", "t0"] []).1 ["tmp", "t0", "x"] = none) ∧
      (fsGet (qcFilterTask
        ⟨fun _ _ _ => "", fun _ _ => true, fun _ _ _ => "", fun _ _ => true⟩
        [("S1", [("filter_db", some "db")])] ["qc"] "atropos" "S1"
        ["tmp", "t0"] []).1 ["tmp", "t0", "x"] = none) := by
  constructor
  · exact (claim_C7_scratch_cleanup
      ⟨fun _ _ _ => "", fun _ _ => false, fun _ _ _ => "", fun _ _ => false⟩
      [] ["qc"] ["raw"] ["tmp", "t0"] "atropos" "S1" [] ["tmp", "t0", "x"] (by decide)).1
  · exact (claim_C7_scratch_cleanup
      ⟨fun _ _ _ => "", fun _ _ => true, fun _ _ _ => "", fun _ _ => true⟩
      [("S1", [("filter_db", some "db")])] ["qc"] ["raw"] ["tmp", "t0"] "atropos" "S1" []
      ["tmp", "t0", "x"] (by decide)).2 "db" (by rfl)

/-! ## Execution of the pass-through branch -/

theorem filteredForward_ne_logB (qcRoot : Path) (s : String) :
    filteredForward qcRoot s ≠ filterLogBowtie qcRoot s :=
  path_ne_of_len (by simp)

theorem filteredForward_ne_logO (qcRoot : Path) (s : String) :
    filteredForward qcRoot s ≠ filterLogOther qcRoot s :=
  path_ne_of_len (by simp)

theorem filteredReverse_ne_logB (qcRoot : Path) (s : String) :
    filteredReverse qcRoot s ≠ filterLogBowtie qcRoot s :=
  path_ne_of_len (by simp)

theorem filteredReverse_ne_logO (qcRoot : Path) (s : String) :
    filteredReverse qcRoot s ≠ filterLogOther qcRoot s :=
  path_ne_of_len (by simp)

theorem trimmedForward_ne_logB (qcRoot : Path) (trim s : String) :
    trimmedForward qcRoot trim s ≠ filterLogBowtie qcRoot s :=
  path_ne_of_len (by simp)

theorem trimmedForward_ne_logO (qcRoot : Path) (trim s : String) :
    trimmedForward qcRoot trim s ≠ filterLogOther qcRoot s :=
  path_ne_of_len (by simp)

theorem trimmedReverse_ne_logB (qcRoot : Path) (trim s : String) :
    trimmedReverse qcRoot trim s ≠ filterLogBowtie qcRoot s :=
  path_ne_of_len (by simp)

theorem trimmedReverse_ne_logO (qcRoot : Path) (trim s : String) :
    trimmedReverse qcRoot trim s ≠ filterLogOther qcRoot s :=
  path_ne_of_len (by simp)

theorem trimmedForward_ne_filteredForward (qcRoot : Path) (trim s : String) :
    trimmedForward qcRoot trim s ≠ filteredForward qcRoot s :=
  trimmed_ne_filtered qcRoot trim s (Or.inl rfl) (Or.inl rfl)

theorem trimmedForward_ne_filteredReverse (qcRoot : Path) (trim s : String) :
    trimmedForward qcRoot trim s ≠ filteredReverse qcRoot s :=
  trimmed_ne_filtered qcRoot trim s (Or.inl rfl) (Or.inr rfl)

theorem trimmedReverse_ne_filteredForward (qcRoot : Path) (trim s : String) :
    trimmedReverse qcRoot trim s ≠ filteredForward qcRoot s :=
  trimmed_ne_filtered qcRoot trim s (Or.inr rfl) (Or.inl rfl)

theorem trimmedReverse_ne_filteredReverse (qcRoot : Path) (trim s : String) :
    trimmedReverse qcRoot trim s ≠ filteredReverse qcRoot s :=
  trimmed_ne_filtered qcRoot trim s (Or.inr rfl) (Or.inr rfl)

/-- The pass-through result filesystem, named for reuse in the statements
below. -/
def passResultFS (qcRoot : Path) (trim s : String) (fs : FS) : FS :=
  fsSet (fsSet (fsSet (fsSet fs
    (filteredForward qcRoot s) (.symlink (trimmedForward qcRoot trim s)))
    (filteredReverse qcRoot s) (.symlink (trimmedReverse qcRoot trim s)))
    (filterLogBowtie qcRoot s) (.file ("No DB provided; sample not filtered." ++ "\n")))
    (filterLogOther qcRoot s) (.file ("No DB provided; sample not filtered." ++ "\n"))

theorem passBranch_spec (env : ToolEnv) (qcRoot : Path) (trim s : String) (fs : FS)
    (hOutF : fsGet fs (filteredForward qcRoot s) = none)
    (hOutR : fsGet fs (filteredReverse qcRoot s) = none) :
    runCmds env (qcFilterPassCmds qcRoot trim s) fs =
      (passResultFS qcRoot trim s fs, none) := by
  have hne : filteredReverse qcRoot s ≠ filteredForward qcRoot s :=
    fun h => filteredForward_ne_filteredReverse qcRoot s h.symm
  have h2 : fsGet (fsSet fs (filteredForward qcRoot s)
      (.symlink (trimmedForward qcRoot trim s))) (filteredReverse qcRoot s) = none := by
    rw [fsGet_set_ne _ _ hne, hOutR]
  simp only [qcFilterPassCmds, runCmds, runCmd, hOutF, h2, passResultFS]

theorem passResultFS_get_outF (qcRoot : Path) (trim s : String) (fs : FS) :
    fsGet (passResultFS qcRoot trim s fs) (filteredForward qcRoot s) =
      some (.symlink (trimmedForward qcRoot trim s)) := by
  unfold passResultFS
  rw [fsGet_set_ne _ _ (filteredForward_ne_logO qcRoot s)]
  rw [fsGet_set_ne _ _ (filteredForward_ne_logB qcRoot s)]
  rw [fsGet_set_ne _ _ (filteredForward_ne_filteredReverse qcRoot s)]
  exact fsGet_set_same _ _ _

theorem passResultFS_get_outR (qcRoot : Path) (trim s : String) (fs : FS) :
    fsGet (passResultFS qcRoot trim s fs) (filteredReverse qcRoot s) =
      some (.symlink (trimmedReverse qcRoot trim s)) := by
  unfold passResultFS
  rw [fsGet_set_ne _ _ (filteredReverse_ne_logO qcRoot s)]
  rw [fsGet_set_ne _ _ (filteredReverse_ne_logB qcRoot s)]
  exact fsGet_set_same _ _ _

theorem passResultFS_get_trimmedF (qcRoot : Path) (trim s : String) (fs : FS) :
    fsGet (passResultFS qcRoot trim s fs) (trimmedForward qcRoot trim s) =
      fsGet fs (trimmedForward qcRoot trim s) := by
  unfold passResultFS
  rw [fsGet_set_ne _ _ (trimmedForward_ne_logO qcRoot trim s)]
  rw [fsGet_set_ne _ _ (trimmedForward_ne_logB qcRoot trim s)]
  rw [fsGet_set_ne _ _ (trimmedForward_ne_filteredReverse qcRoot trim s)]
  rw [fsGet_set_ne _ _ (trimmedForward_ne_filteredForward qcRoot trim s)]

theorem passResultFS_get_trimmedR (qcRoot : Path) (trim s : String) (fs : FS) :
    fsGet (passResultFS qcRoot trim s fs) (trimmedReverse qcRoot trim s) =
      fsGet fs (trimmedReverse qcRoot trim s) := by
  unfold passResultFS
  rw [fsGet_set_ne _ _ (trimmedReverse_ne_logO qcRoot trim s)]
  rw [fsGet_set_ne _ _ (trimmedReverse_ne_logB qcRoot trim s)]
  rw [fsGet_set_ne _ _ (trimmedReverse_ne_filteredReverse qcRoot trim s)]
  rw [fsGet_set_ne _ _ (trimmedReverse_ne_filteredForward qcRoot trim s)]

/-- C3: for a sample whose configured filter database is None, after the
pass-through branch of qc_filter the content read at each filter-stage
output path equals the content of the corresponding trimmed input, and the
trimmed inputs themselves are unmodified. -/
theorem claim_C3_passthrough_identity (env : ToolEnv) (qcRoot : Path) (trim s : String)
    (fs : FS) (cF cR : String)
    (hInF : fsGet fs (trimmedForward qcRoot trim s) = some (.file cF))
    (hInR : fsGet fs (trimmedReverse qcRoot trim s) = some (.file cR))
    (hOutF : fsGet fs (filteredForward qcRoot s) = none)
    (hOutR : fsGet fs (filteredReverse qcRoot s) = none) :
    (runCmds env (qcFilterPassCmds qcRoot trim s) fs).2 = none ∧
      readFile (runCmds env (qcFilterPassCmds qcRoot trim s) fs).1 (filteredForward qcRoot s) =
        readFile fs (trimmedForward qcRoot trim s) ∧
      readFile (runCmds env (qcFilterPassCmds qcRoot trim s) fs).1 (filteredReverse qcRoot s) =
        readFile fs (trimmedReverse qcRoot trim s) ∧
      fsGet (runCmds env (qcFilterPassCmds qcRoot trim s) fs).1 (trimmedForward qcRoot trim s) =
        fsGet fs (trimmedForward qcRoot trim s) ∧
      fsGet (runCmds env (qcFilterPassCmds qcRoot trim s) fs).1 (trimmedReverse qcRoot trim s) =
        fsGet fs (trimmedReverse qcRoot trim s) := by
  rw [passBranch_spec env qcRoot trim s fs hOutF hOutR]
  refine ⟨rfl, ?_, ?_, ?_, ?_⟩
  · show readFile (passResultFS qcRoot trim s fs) (filteredForward qcRoot s) = _
    simp only [readFile, passResultFS_get_outF, passResultFS_get_trimmedF, hInF]
  · show readFile (passResultFS qcRoot trim s fs) (filteredReverse qcRoot s) = _
    simp only [readFile, passResultFS_get_outR, passResultFS_get_trimmedR, hInR]
  · exact passResultFS_get_trimmedF qcRoot trim s fs
  · exact passResultFS_get_trimmedR qcRoot trim s fs

/-- Witness for C3: a concrete filesystem holding the two trimmed files;
after the pass-through branch, reading each output path yields the trimmed
bytes. -/
theorem claim_C3_witness :
    (runCmds
        ⟨fun _ _ _ => "", fun _ _ => true, fun _ _ _ => "", fun _ _ => true⟩
        (qcFilterPassCmds ["qc"] "atropos" "S1")
        [(trimmedForward ["qc"] "atropos" "S1", .file "R1BYTES"),
         (trimmedReverse ["qc"] "atropos" "S1", .file "R2BYTES")]).2 = none ∧
      readFile (runCmds
        ⟨fun _ _ _ => "", fun _ _ => true, fun _ _ _ => "", fun _ _ => true⟩
        (qcFilterPassCmds ["qc"] "atropos" "S1")
        [(trimmedForward ["qc"] "atropos" "S1", .file "R1BYTES"),
         (trimmedReverse ["qc"] "atropos" "S1", .file "R2BYTES")]).1
        (filteredForward ["qc"] "S1") =
      readFile
        [(trimmedForward ["qc"] "atropos" "S1", .file "R1BYTES"),
         (trimmedReverse ["qc"] "atropos" "S1", .file "R2BYTES")]
        (trimmedForward ["qc"] "atropos" "S1") := by
  have h := claim_C3_passthrough_identity
    ⟨fun _ _ _ => "", fun _ _ => true, fun _ _ _ => "", fun _ _ => true⟩
    ["qc"] "atropos" "S1"
    [(trimmedForward ["qc"] "atropos" "S1", .file "R1BYTES"),
     (trimmedReverse ["qc"] "atropos" "S1", .file "R2BYTES")]
    "R1BYTES" "R2BYTES" (by decide) (by decide) (by decide) (by decide)
  exact ⟨h.1, h.2.1⟩

/-- C9: for a sample taking the pass-through branch, both the bowtie log
and the other-tools log are written and record the not-filtered condition. -/
theorem claim_C9_passthrough_logs (env : ToolEnv) (qcRoot : Path) (trim s : String)
    (fs : FS)
    (hOutF : fsGet fs (filteredForward qcRoot s) = none)
    (hOutR : fsGet fs (filteredReverse qcRoot s) = none) :
    (runCmds env (qcFilterPassCmds qcRoot trim s) fs).2 = none ∧
      fsGet (runCmds env (qcFilterPassCmds qcRoot trim s) fs).1 (filterLogBowtie qcRoot s) =
        some (.file "No DB provided; sample not filtered.\n") ∧
      fsGet (runCmds env (qcFilterPassCmds qcRoot trim s) fs).1 (filterLogOther qcRoot s) =
        some (.file "No DB provided; sample not filtered.\n") := by
  rw [passBranch_spec env qcRoot trim s fs hOutF hOutR]
  refine ⟨rfl, ?_, ?_⟩
  · show fsGet (passResultFS qcRoot trim s fs) (filterLogBowtie qcRoot s) = _
    unfold passResultFS
    rw [fsGet_set_ne _ _ (filterLogBowtie_ne_filterLogOther qcRoot s)]
    exact fsGet_set_same _ _ _
  · show fsGet (passResultFS qcRoot trim s fs) (filterLogOther qcRoot s) = _
    unfold passResultFS
    exact fsGet_set_same _ _ _

/-- Witness for C9: on a concrete filesystem with no outputs present, the
pass-through branch writes the not-filtered notice into both logs. -/
theorem claim_C9_witness :
    fsGet (runCmds
        ⟨fun _ _ _ => "", fun _ _ => true, fun _ _ _ => "", fun _ _ => true⟩
        (qcFilterPassCmds ["qc"] "atropos" "S1") []).1 (filterLogBowtie ["qc"] "S1") =
      some (.file "No DB provided; sample not filtered.\n") ∧
    fsGet (runCmds
        ⟨fun _ _ _ => "", fun _ _ => true, fun _ _ _ => "", fun _ _ => true⟩
        (qcFilterPassCmds ["qc"] "atropos" "S1") []).1 (filterLogOther ["qc"] "S1") =
      some (.file "No DB provided; sample not filtered.\n") := by
  have h := claim_C9_passthrough_logs
    ⟨fun _ _ _ => "", fun _ _ => true, fun _ _ _ => "", fun _ _ => true⟩
    ["qc"] "atropos" "S1" [] (by decide) (by decide)
  exact ⟨h.2.1, h.2.2⟩

/-! ## Scratch staging (claim C4) -/

/-- The files an external tool writes in place (incrementally) during a
command; scp, ln and echo are not tool writes. -/
def cmdToolWrites : Cmd → List Path
  | .toolRun _ _ ws => ws
  | .toolScan _ _ ws => ws
  | _ => []

/-- A script stages its declared outputs via the scratch directory when
every declared output is installed by an scp whose source lies under the
scratch directory, and no external tool writes a declared output path
directly. -/
def stagesViaScratch (tmpDir : Path) (cmds : List Cmd) (outs : List Path) : Bool :=
  outs.all (fun o => cmds.any (fun c =>
    match c with
    | .scp src dest => dest == o && tmpDir.isPrefixOf src
    | _ => false)) &&
  cmds.all (fun c => (cmdToolWrites c).all (fun w => !(outs.contains w)))

theorem isPrefixOf_append_self (l x : Path) : l.isPrefixOf (l ++ x) = true := by
  induction l with
  | nil => simp [List.isPrefixOf]
  | cons a t ih => simp [List.isPrefixOf, ih]

theorem contains_eq_false_of_not_mem {l : List Path} {p : Path} (h : p ∉ l) :
    l.contains p = false := by
  cases hc : l.contains p
  · rfl
  · exact absurd (List.mem_of_elem_eq_true hc) h

/-- Counterexample to C4 as stated: rule qc_per_sample_fastqc does not
stage its declared outputs in a scratch directory and copy them; the tool
writes them directly at their final location. -/
theorem claim_C4_counterexample :
    stagesViaScratch ["tmp", "t0"] (fastqcCmds ["qc"] "S1") (fastqcOutputs ["qc"] "S1") = false := by
  decide

/-- C4 amended: qc_atropos and the database branch of qc_filter write tool
output only in scratch and install every declared output by copying a
complete scratch file; qc_per_sample_fastqc and qc_per_sample_multiqc do
not stage via scratch — their tools write the declared outputs directly at
the final location, so the no-partial-visibility argument holds only for
the first two rules. -/
theorem claim_C4_amended (qcRoot rawRoot tmpDir : Path) (trim s : String)
    (samples : List String)
    (hfa : ∀ xs : Path, tmpDir ++ xs ∉ atroposOutputs qcRoot trim s)
    (hff : ∀ xs : Path, tmpDir ++ xs ∉ qcFilterOutputs qcRoot s) :
    stagesViaScratch tmpDir (atroposCmds qcRoot rawRoot trim s tmpDir)
        (atroposOutputs qcRoot trim s) = true ∧
      stagesViaScratch tmpDir (qcFilterDbCmds qcRoot trim s tmpDir)
        (qcFilterOutputs qcRoot s) = true ∧
      stagesViaScratch tmpDir (fastqcCmds qcRoot s) (fastqcOutputs qcRoot s) = false ∧
      stagesViaScratch tmpDir (multiqcCmds qcRoot samples) (multiqcOutputs qcRoot) = false := by
  have ha1 : (atroposOutputs qcRoot trim s).contains
      (tmpDir ++ [s ++ ".trimmed.R1.fastq.gz"]) = false :=
    contains_eq_false_of_not_mem (hfa _)
  have ha2 : (atroposOutputs qcRoot trim s).contains
      (tmpDir ++ [s ++ ".trimmed.R2.fastq.gz"]) = false :=
    contains_eq_false_of_not_mem (hfa _)
  have ha3 : (atroposOutputs qcRoot trim s).contains (atroposLog qcRoot s) = false := by
    apply contains_eq_false_of_not_mem
    intro hm
    simp only [atroposOutputs, List.mem_cons, List.not_mem_nil, or_false] at hm
    rcases hm with hm | hm
    · exact path_ne_of_len (by simp) hm
    · exact path_ne_of_len (by simp) hm
  have hf1 : (qcFilterOutputs qcRoot s).contains
      (tmpDir ++ [s ++ ".R1.trimmed.filtered.fastq"]) = false :=
    contains_eq_false_of_not_mem (hff _)
  have hf2 : (qcFilterOutputs qcRoot s).contains
      (tmpDir ++ [s ++ ".R2.trimmed.filtered.fastq"]) = false :=
    contains_eq_false_of_not_mem (hff _)
  have hf3 : (qcFilterOutputs qcRoot s).contains
      (tmpDir ++ [s ++ ".R1.trimmed.filtered.fastq.gz"]) = false :=
    contains_eq_false_of_not_mem (hff _)
  have hf4 : (qcFilterOutputs qcRoot s).contains
      (tmpDir ++ [s ++ ".R2.trimmed.filtered.fastq.gz"]) = false :=
    contains_eq_false_of_not_mem (hff _)
  have hf5 : (qcFilterOutputs qcRoot s).contains (filterLogBowtie qcRoot s) = false := by
    apply contains_eq_false_of_not_mem
    intro hm
    simp only [qcFilterOutputs, List.mem_cons, List.not_mem_nil, or_false] at hm
    rcases hm with hm | hm
    · exact path_ne_of_len (by simp) hm
    · exact path_ne_of_len (by simp) hm
  have hf6 : (qcFilterOutputs qcRoot s).contains (filterLogOther qcRoot s) = false := by
    apply contains_eq_false_of_not_mem
    intro hm
    simp only [qcFilterOutputs, List.mem_cons, List.not_mem_nil, or_false] at hm
    rcases hm with hm | hm
    · exact path_ne_of_len (by simp) hm
    · exact path_ne_of_len (by simp) hm
  refine ⟨?_, ?_, ?_, ?_⟩
  · simp only [stagesViaScratch, atroposCmds, atroposTmpF, atroposTmpR, cmdToolWrites,
      List.all_cons, List.all_nil, List.any_cons, List.any_nil,
      ha1, ha2, ha3, isPrefixOf_append_self, beq_self_eq_true]
    simp
    intro x hx
    simp only [atroposOutputs, List.mem_cons, List.not_mem_nil, or_false] at hx
    rcases hx with hx | hx
    · exact Or.inl hx.symm
    · exact Or.inr hx.symm
  · simp only [stagesViaScratch, qcFilterDbCmds, cmdToolWrites,
      List.all_cons, List.all_nil, List.any_cons, List.any_nil,
      hf1, hf2, hf3, hf4, hf5, hf6, isPrefixOf_append_self, beq_self_eq_true]
    simp
    intro x hx
    simp only [qcFilterOutputs, List.mem_cons, List.not_mem_nil, or_false] at hx
    rcases hx with hx | hx
    · exact Or.inl hx.symm
    · exact Or.inr hx.symm
  · simp only [stagesViaScratch, fastqcCmds, fastqcOutputs,
      List.all_cons, List.all_nil, List.any_cons, List.any_nil]
    simp
  · simp only [stagesViaScratch, multiqcCmds, multiqcOutputs,
      List.all_cons, List.all_nil, List.any_cons, List.any_nil]
    simp

/-- Witness for C4 amended, at concrete roots and a concrete scratch
directory disjoint from the output tree. -/
theorem claim_C4_witness :
    stagesViaScratch ["tmp", "t0"] (atroposCmds ["qc"] ["raw"] "atropos" "S1" ["tmp", "t0"])
        (atroposOutputs ["qc"] "atropos" "S1") = true ∧
      stagesViaScratch ["tmp", "t0"] (qcFilterDbCmds ["qc"] "atropos" "S1" ["tmp", "t0"])
        (qcFilterOutputs ["qc"] "S1") = true := by
  have h := claim_C4_amended ["qc"] ["raw"] ["tmp", "t0"] "atropos" "S1" []
    (by
      intro xs hm
      simp only [atroposOutputs, trimmedForward, trimmedReverse,
        List.cons_append, List.nil_append, List.mem_cons, List.not_mem_nil, or_false] at hm
      rcases hm with hm | hm <;> simp at hm)
    (by
      intro xs hm
      simp only [qcFilterOutputs, filteredForward, filteredReverse,
        List.cons_append, List.nil_append, List.mem_cons, List.not_mem_nil, or_false] at hm
      rcases hm with hm | hm <;> simp at hm)
  exact ⟨h.1, h.2.1⟩

/-! ## The fastqc report names (claim C8) -/

theorem getLastD_append3 (root : Path) (a b c d : String) :
    (root ++ [a, b, c]).getLastD d = c := by
  induction root generalizing d with
  | nil => rfl
  | cons x t ih => simp only [List.cons_append, List.getLastD_cons, ih]

theorem stripFastqGz_append (s A : String) (h9 : 9 ≤ A.data.length) :
    stripFastqGz (s ++ A) = s ++ String.mk (A.data.take (A.data.length - 9)) := by
  unfold stripFastqGz
  apply String.ext
  show ((s ++ A).data.take ((s ++ A).data.length - 9)) = (s ++ _).data
  rw [String.data_append, String.data_append]
  show (s.data ++ A.data).take ((s.data ++ A.data).length - 9) = s.data ++ A.data.take (A.data.length - 9)
  rw [List.length_append, List.take_append_eq_append_take]
  have h1 : s.data.length ≤ s.data.length + A.data.length - 9 := by omega
  rw [List.take_of_length_le h1]
  have h2 : s.data.length + A.data.length - 9 - s.data.length = A.data.length - 9 := by omega
  rw [h2]

theorem fastqcHtmlFor_forward (qcRoot : Path) (s : String) :
    fastqcHtmlFor qcRoot s (filteredForward qcRoot s) =
      qcRoot ++ [s, "fastqc_per_sample", s ++ ".R1.trimmed.filtered_fastqc.html"] := by
  unfold fastqcHtmlFor fastqcDir filteredForward
  rw [getLastD_append3]
  rw [stripFastqGz_append s ".R1.trimmed.filtered.fastq.gz" (by decide)]
  have h1 : String.mk ((".R1.trimmed.filtered.fastq.gz" : String).data.take
      ((".R1.trimmed.filtered.fastq.gz" : String).data.length - 9)) = ".R1.trimmed.filtered" := by
    decide
  rw [h1, String.append_assoc, List.append_assoc]
  rfl

theorem fastqcHtmlFor_reverse (qcRoot : Path) (s : String) :
    fastqcHtmlFor qcRoot s (filteredReverse qcRoot s) =
      qcRoot ++ [s, "fastqc_per_sample", s ++ ".R2.trimmed.filtered_fastqc.html"] := by
  unfold fastqcHtmlFor fastqcDir filteredReverse
  rw [getLastD_append3]
  rw [stripFastqGz_append s ".R2.trimmed.filtered.fastq.gz" (by decide)]
  have h1 : String.mk ((".R2.trimmed.filtered.fastq.gz" : String).data.take
      ((".R2.trimmed.filtered.fastq.gz" : String).data.length - 9)) = ".R2.trimmed.filtered" := by
    decide
  rw [h1, String.append_assoc, List.append_assoc]
  rfl

theorem fastqcZipFor_forward (qcRoot : Path) (s : String) :
    fastqcZipFor qcRoot s (filteredForward qcRoot s) =
      qcRoot ++ [s, "fastqc_per_sample", s ++ ".R1.trimmed.filtered_fastqc.zip"] := by
  unfold fastqcZipFor fastqcDir filteredForward
  rw [getLastD_append3]
  rw [stripFastqGz_append s ".R1.trimmed.filtered.fastq.gz" (by decide)]
  have h1 : String.mk ((".R1.trimmed.filtered.fastq.gz" : String).data.take
      ((".R1.trimmed.filtered.fastq.gz" : String).data.length - 9)) = ".R1.trimmed.filtered" := by
    decide
  rw [h1, String.append_assoc, List.append_assoc]
  rfl

theorem fastqcZipFor_reverse (qcRoot : Path) (s : String) :
    fastqcZipFor qcRoot s (filteredReverse qcRoot s) =
      qcRoot ++ [s, "fastqc_per_sample", s ++ ".R2.trimmed.filtered_fastqc.zip"] := by
  unfold fastqcZipFor fastqcDir filteredReverse
  rw [getLastD_append3]
  rw [stripFastqGz_append s ".R2.trimmed.filtered.fastq.gz" (by decide)]
  have h1 : String.mk ((".R2.trimmed.filtered.fastq.gz" : String).data.take
      ((".R2.trimmed.filtered.fastq.gz" : String).data.length - 9)) = ".R2.trimmed.filtered" := by
    decide
  rw [h1, String.append_assoc, List.append_assoc]
  rfl

/-- Counterexample to C8 as stated: the declared outputs of
qc_per_sample_fastqc are not the reverse-read html/zip pair; at a concrete
sample the declared html is the R1 report, not the R2 one. -/
theorem claim_C8_counterexample :
    ¬ (fastqcOutputs ["qc"] "S1" =
        [fastqcHtmlFor ["qc"] "S1" (filteredReverse ["qc"] "S1"),
         fastqcZipFor ["qc"] "S1" (filteredReverse ["qc"] "S1")]) := by
  decide

/-- C8 amended: the declared outputs of qc_per_sample_fastqc are the
forward-read html report and the reverse-read zip archive, a mixed pair;
both are among the files the fastqc invocation writes (it writes an html
and a zip for each of the two inputs), and the declared html differs from
the reverse-read html. -/
theorem claim_C8_amended (qcRoot : Path) (s : String) :
    fastqcOutputs qcRoot s =
        [fastqcHtmlFor qcRoot s (filteredForward qcRoot s),
         fastqcZipFor qcRoot s (filteredReverse qcRoot s)] ∧
      (∀ o ∈ fastqcOutputs qcRoot s,
        o ∈ (fastqcCmds qcRoot s).flatMap cmdToolWrites) ∧
      fastqcHtmlFor qcRoot s (filteredForward qcRoot s) ≠
        fastqcHtmlFor qcRoot s (filteredReverse qcRoot s) := by
  refine ⟨?_, ?_, ?_⟩
  · rw [fastqcHtmlFor_forward, fastqcZipFor_reverse]
    rfl
  · intro o ho
    simp only [fastqcOutputs, List.mem_cons, List.not_mem_nil, or_false] at ho
    simp only [fastqcCmds, cmdToolWrites, List.flatMap_cons, List.flatMap_nil, List.append_nil]
    rcases ho with ho | ho
    · subst ho
      rw [← fastqcHtmlFor_forward]
      simp [List.mem_cons]
    · subst ho
      rw [← fastqcZipFor_reverse]
      simp [List.mem_cons]
  · rw [fastqcHtmlFor_forward, fastqcHtmlFor_reverse]
    apply path_ne_of_comp
    simp only [List.cons_eq_cons, ne_eq]
    intro h
    exact str_append_ne s (by decide) h.2.2.1

/-- Witness for C8 amended at a concrete sample. -/
theorem claim_C8_witness :
    fastqcOutputs ["qc"] "S1" =
      [fastqcHtmlFor ["qc"] "S1" (filteredForward ["qc"] "S1"),
       fastqcZipFor ["qc"] "S1" (filteredReverse ["qc"] "S1")] :=
  (claim_C8_amended ["qc"] "S1").1

/-! ## Synchronization of the aggregate report (claim C6) -/

theorem validSchedule_inputs {qcRoot rawRoot : Path} {trim : String}
    {samples : List String} {initial : List Path} {evts : List PipeTask}
    (hv : validSchedule qcRoot rawRoot trim samples initial evts = true)
    {k : Nat} (hk : k < evts.length) :
    ∀ p ∈ taskInputs qcRoot rawRoot trim samples evts[k],
      existsAt qcRoot trim initial evts k p = true := by
  intro p hp
  have h1 := List.all_eq_true.mp hv k (List.mem_range.mpr hk)
  rw [List.getD_eq_getElem evts .multiqc hk] at h1
  exact List.all_eq_true.mp h1 p hp

/-- Only the multiqc task has the combined report among its declared
outputs (every other rule's outputs sit three components below the qc
root, the report only two). -/
theorem report_only_from_multiqc (qcRoot : Path) (trim : String) (tsk : PipeTask)
    (h : multiqcReport qcRoot ∈ taskOutputs qcRoot trim tsk) : tsk = .multiqc := by
  cases tsk with
  | atropos s =>
    simp only [taskOutputs, atroposOutputs, List.mem_cons, List.not_mem_nil, or_false] at h
    rcases h with h | h
    · exact absurd h (path_ne_of_len (by simp))
    · exact absurd h (path_ne_of_len (by simp))
  | qcfilter s =>
    simp only [taskOutputs, qcFilterOutputs, List.mem_cons, List.not_mem_nil, or_false] at h
    rcases h with h | h
    · exact absurd h (path_ne_of_len (by simp))
    · exact absurd h (path_ne_of_len (by simp))
  | fastqc s =>
    simp only [taskOutputs, fastqcOutputs, List.mem_cons, List.not_mem_nil, or_false] at h
    rcases h with h | h
    · exact absurd h (path_ne_of_len (by simp))
    · exact absurd h (path_ne_of_len (by simp))
  | multiqc => rfl

theorem producedBy_take_mono {qcRoot : Path} {trim : String} {evts : List PipeTask}
    {p : Path} {k t : Nat} (hkt : k ≤ t)
    (h : p ∈ producedBy qcRoot trim (evts.take k)) :
    p ∈ producedBy qcRoot trim (evts.take t) := by
  simp only [producedBy, List.mem_flatMap] at h ⊢
  obtain ⟨tsk, htsk, hout⟩ := h
  refine ⟨tsk, ?_, hout⟩
  have he : evts.take k = (evts.take t).take k := by
    rw [List.take_take, Nat.min_eq_left hkt]
  rw [he] at htsk
  exact List.mem_of_mem_take htsk

/-- C6: the aggregate report task declares as input the R2 fastqc zip of
every configured sample, so (i) in any valid schedule, whenever the multiqc
task runs, every sample's per-sample report output already exists, and
(ii) the combined report never exists before every sample's per-sample
report output exists. -/
theorem claim_C6_multiqc_synchronization (qcRoot rawRoot : Path) (trim : String)
    (samples : List String) (initial : List Path) (evts : List PipeTask)
    (hv : validSchedule qcRoot rawRoot trim samples initial evts = true)
    (hinit : multiqcReport qcRoot ∉ initial) :
    (∀ k, ∀ hk : k < evts.length, evts[k] = .multiqc →
      ∀ s ∈ samples, existsAt qcRoot trim initial evts k
        (qcRoot ++ [s, "fastqc_per_sample", s ++ ".R2.trimmed.filtered_fastqc.zip"]) = true) ∧
      (∀ t, existsAt qcRoot trim initial evts t (multiqcReport qcRoot) = true →
        ∀ s ∈ samples, existsAt qcRoot trim initial evts t
          (qcRoot ++ [s, "fastqc_per_sample", s ++ ".R2.trimmed.filtered_fastqc.zip"]) = true) := by
  have hpart1 : ∀ k, ∀ hk : k < evts.length, evts[k] = .multiqc →
      ∀ s ∈ samples, existsAt qcRoot trim initial evts k
        (qcRoot ++ [s, "fastqc_per_sample", s ++ ".R2.trimmed.filtered_fastqc.zip"]) = true := by
    intro k hk hmq s hs
    have h1 := validSchedule_inputs hv hk
    rw [hmq] at h1
    apply h1
    simp only [taskInputs, multiqcInputs, List.mem_map]
    exact ⟨s, hs, rfl⟩
  refine ⟨hpart1, ?_⟩
  intro t hrep s hs
  simp only [existsAt, Bool.or_eq_true] at hrep
  rcases hrep with hrep | hrep
  · exact absurd (List.mem_of_elem_eq_true hrep) hinit
  · have hmem := List.mem_of_elem_eq_true hrep
    simp only [producedBy, List.mem_flatMap] at hmem
    obtain ⟨tsk, htsk, hout⟩ := hmem
    have htm := report_only_from_multiqc qcRoot trim tsk hout
    subst htm
    obtain ⟨i, hi, hieq⟩ := List.mem_iff_getElem.mp htsk
    have hit : i < evts.length := by
      have := hi
      simp only [List.length_take] at this
      omega
    have hieq2 : evts[i] = PipeTask.multiqc := by
      rw [← hieq]
      exact (List.getElem_take evts).symm
    have h2 := hpart1 i hit hieq2 s hs
    simp only [existsAt, Bool.or_eq_true] at h2 ⊢
    rcases h2 with h2 | h2
    · exact Or.inl h2
    · refine Or.inr ?_
      apply List.elem_eq_true_of_mem
      apply producedBy_take_mono (k := i) (t := t) ?_ (List.mem_of_elem_eq_true h2)
      have := hi
      simp only [List.length_take] at this
      omega

/-- Witness for C6: in a concrete valid schedule for one sample, when the
multiqc task runs at step 3 the sample's fastqc zip already exists. -/
theorem claim_C6_witness :
    existsAt ["qc"] "atropos"
      [rawForward ["raw"] "S1", rawReverse ["raw"] "S1"]
      [.atropos "S1", .qcfilter "S1", .fastqc "S1", .multiqc] 3
      (["qc"] ++ ["S1", "fastqc_per_sample", "S1" ++ ".R2.trimmed.filtered_fastqc.zip"]) = true := by
  have h := claim_C6_multiqc_synchronization ["qc"] ["raw"] "atropos" ["S1"]
    [rawForward ["raw"] "S1", rawReverse ["raw"] "S1"]
    [.atropos "S1", .qcfilter "S1", .fastqc "S1", .multiqc]
    (by decide) (by decide)
  exact h.1 3 (by decide) (by rfl) "S1" (by decide)

/-! ## Re-running tasks (claim C5) -/

theorem isPrefixOf_refl (l : Path) : l.isPrefixOf l = true := by
  have h := isPrefixOf_append_self l []
  rw [List.append_nil] at h
  exact h

theorem ne_of_prefixOf_false {root q : Path} (h : root.isPrefixOf q = false) (xs : Path) :
    root ++ xs ≠ q := by
  intro he
  rw [← he, isPrefixOf_append_self] at h
  exact absurd h (by simp)

theorem prefixOfFalse_ne_root {root q : Path} (h : root.isPrefixOf q = false) :
    root ≠ q := by
  have h2 := ne_of_prefixOf_false h []
  simpa using h2

theorem tmp_file_ne (tmpDir : Path) {x y : String} (h : x ≠ y) :
    tmpDir ++ [x] ≠ tmpDir ++ [y] :=
  path_ne_of_comp (by simp [h])

theorem fsGet_filter_keep {f : Path × FNode → Bool} {fs : FS} {q : Path}
    (hf : ∀ n, f (q, n) = true) : fsGet (fs.filter f) q = fsGet fs q := by
  induction fs with
  | nil => rfl
  | cons a t ih =>
    rcases a with ⟨p, n⟩
    by_cases hq : p = q
    · subst hq
      have h1 : f (p, n) = true := hf n
      simp [List.filter_cons, h1, fsGet, List.find?_cons]
    · have h1 : ((p, n).1 == q) = false := by simp [hq]
      have hrhs : fsGet ((p, n) :: t) q = fsGet t q := by
        simp [fsGet, List.find?_cons, h1]
      rw [hrhs]
      cases hfa : f (p, n)
      · rw [List.filter_cons, if_neg (by simp [hfa])]
        exact ih
      · rw [List.filter_cons, if_pos (by simp [hfa])]
        have hlhs : fsGet ((p, n) :: List.filter f t) q = fsGet (List.filter f t) q := by
          simp [fsGet, List.find?_cons, h1]
        rw [hlhs]
        exact ih

theorem fsGet_rmTree_of_not_under {fs : FS} {root q : Path}
    (h : root.isPrefixOf q = false) :
    fsGet (rmTree fs root) q = fsGet fs q :=
  fsGet_filter_keep (fun n => by simp [h])

/-- Steps of a strict-mode shell block: a succeeding command hands its
filesystem to the rest of the block. -/
theorem runCmds_cons_ok {env : ToolEnv} {c : Cmd} {cs : List Cmd} {fs fs1 : FS}
    (h : runCmd env fs c = (fs1, none)) :
    runCmds env (c :: cs) fs = runCmds env cs fs1 := by
  simp [runCmds, h]

/-- Full execution of qc_atropos when the trimmer succeeds: the task
succeeds, each declared output holds the bytes the tool produced for the
corresponding scratch file (a deterministic function of the raw input
contents), and the raw inputs are untouched.  The freshness hypotheses say
the scratch directory is disjoint from the raw and qc trees and that the
raw files, outputs and log are pairwise distinct paths. -/
theorem atroposTask_spec (env : ToolEnv) (qcRoot rawRoot tmpDir : Path) (trim s : String)
    (fs : FS) (aF aR : String)
    (hrf : fsGet fs (rawForward rawRoot s) = some (.file aF))
    (hrr : fsGet fs (rawReverse rawRoot s) = some (.file aR))
    (hex : env.exitOk "atropos" [some aF, some aR] = true)
    (p1 : tmpDir.isPrefixOf (rawForward rawRoot s) = false)
    (p2 : tmpDir.isPrefixOf (rawReverse rawRoot s) = false)
    (p3 : tmpDir.isPrefixOf (trimmedForward qcRoot trim s) = false)
    (p4 : tmpDir.isPrefixOf (trimmedReverse qcRoot trim s) = false)
    (p5 : tmpDir.isPrefixOf (atroposLog qcRoot s) = false)
    (n1 : rawForward rawRoot s ≠ trimmedForward qcRoot trim s)
    (n2 : rawForward rawRoot s ≠ trimmedReverse qcRoot trim s)
    (n3 : rawForward rawRoot s ≠ atroposLog qcRoot s)
    (n4 : rawReverse rawRoot s ≠ trimmedForward qcRoot trim s)
    (n5 : rawReverse rawRoot s ≠ trimmedReverse qcRoot trim s)
    (n6 : rawReverse rawRoot s ≠ atroposLog qcRoot s) :
    (qcAtroposTask env qcRoot rawRoot trim s tmpDir fs).2 = none ∧
      fsGet (qcAtroposTask env qcRoot rawRoot trim s tmpDir fs).1
          (trimmedForward qcRoot trim s) =
        some (.file (env.out "atropos" [some aF, some aR] (atroposTmpF tmpDir s))) ∧
      fsGet (qcAtroposTask env qcRoot rawRoot trim s tmpDir fs).1
          (trimmedReverse qcRoot trim s) =
        some (.file (env.out "atropos" [some aF, some aR] (atroposTmpR tmpDir s))) ∧
      fsGet (qcAtroposTask env qcRoot rawRoot trim s tmpDir fs).1 (rawForward rawRoot s) =
        some (.file aF) ∧
      fsGet (qcAtroposTask env qcRoot rawRoot trim s tmpDir fs).1 (rawReverse rawRoot s) =
        some (.file aR) := by
  have htmpF : atroposTmpF tmpDir s = tmpDir ++ [s ++ ".trimmed.R1.fastq.gz"] := rfl
  have htmpR : atroposTmpR tmpDir s = tmpDir ++ [s ++ ".trimmed.R2.fastq.gz"] := rfl
  have hrf0 : readFile (fsSet fs tmpDir .dir) (rawForward rawRoot s) = some aF := by
    rw [readFile, fsGet_set_ne _ _ (fun he => prefixOfFalse_ne_root p1 he.symm), hrf]
  have hrr0 : readFile (fsSet fs tmpDir .dir) (rawReverse rawRoot s) = some aR := by
    rw [readFile, fsGet_set_ne _ _ (fun he => prefixOfFalse_ne_root p2 he.symm), hrr]
  have htfne : atroposTmpF tmpDir s ≠ atroposTmpR tmpDir s :=
    tmp_file_ne tmpDir (str_append_ne s (by decide))
  have htf_log : atroposTmpF tmpDir s ≠ atroposLog qcRoot s := ne_of_prefixOf_false p5 _
  have htr_log : atroposTmpR tmpDir s ≠ atroposLog qcRoot s := ne_of_prefixOf_false p5 _
  have htf_outF : atroposTmpF tmpDir s ≠ trimmedForward qcRoot trim s :=
    ne_of_prefixOf_false p3 _
  have htr_outF : atroposTmpR tmpDir s ≠ trimmedForward qcRoot trim s :=
    ne_of_prefixOf_false p3 _
  have s1 : runCmd env (fsSet fs tmpDir .dir)
      (Cmd.toolRun "atropos" [rawForward rawRoot s, rawReverse rawRoot s]
        [atroposTmpF tmpDir s, atroposTmpR tmpDir s, atroposLog qcRoot s]) =
      (fsSet (fsSet (fsSet (fsSet fs tmpDir .dir)
        (atroposTmpF tmpDir s)
          (.file (env.out "atropos" [some aF, some aR] (atroposTmpF tmpDir s))))
        (atroposTmpR tmpDir s)
          (.file (env.out "atropos" [some aF, some aR] (atroposTmpR tmpDir s))))
        (atroposLog qcRoot s)
          (.file (env.out "atropos" [some aF, some aR] (atroposLog qcRoot s))), none) := by
    simp only [runCmd, List.map_cons, List.map_nil, hrf0, hrr0, hex, if_true,
      List.foldl_cons, List.foldl_nil]
  have hread1 : readFile (fsSet (fsSet (fsSet (fsSet fs tmpDir .dir)
      (atroposTmpF tmpDir s)
        (.file (env.out "atropos" [some aF, some aR] (atroposTmpF tmpDir s))))
      (atroposTmpR tmpDir s)
        (.file (env.out "atropos" [some aF, some aR] (atroposTmpR tmpDir s))))
      (atroposLog qcRoot s)
        (.file (env.out "atropos" [some aF, some aR] (atroposLog qcRoot s))))
      (atroposTmpF tmpDir s) =
      some (env.out "atropos" [some aF, some aR] (atroposTmpF tmpDir s)) := by
    rw [readFile, fsGet_set_ne _ _ htf_log, fsGet_set_ne _ _ htfne, fsGet_set_same]
  have s2 : runCmd env (fsSet (fsSet (fsSet (fsSet fs tmpDir .dir)
      (atroposTmpF tmpDir s)
        (.file (env.out "atropos" [some aF, some aR] (atroposTmpF tmpDir s))))
      (atroposTmpR tmpDir s)
        (.file (env.out "atropos" [some aF, some aR] (atroposTmpR tmpDir s))))
      (atroposLog qcRoot s)
        (.file (env.out "atropos" [some aF, some aR] (atroposLog qcRoot s))))
      (Cmd.scp (atroposTmpF tmpDir s) (trimmedForward qcRoot trim s)) =
      (fsSet (fsSet (fsSet (fsSet (fsSet fs tmpDir .dir)
        (atroposTmpF tmpDir s)
          (.file (env.out "atropos" [some aF, some aR] (atroposTmpF tmpDir s))))
        (atroposTmpR tmpDir s)
          (.file (env.out "atropos" [some aF, some aR] (atroposTmpR tmpDir s))))
        (atroposLog qcRoot s)
          (.file (env.out "atropos" [some aF, some aR] (atroposLog qcRoot s))))
        (trimmedForward qcRoot trim s)
          (.file (env.out "atropos" [some aF, some aR] (atroposTmpF tmpDir s))), none) := by
    simp only [runCmd, hread1]
  have hread2 : readFile (fsSet (fsSet (fsSet (fsSet (fsSet fs tmpDir .dir)
      (atroposTmpF tmpDir s)
        (.file (env.out "atropos" [some aF, some aR] (atroposTmpF tmpDir s))))
      (atroposTmpR tmpDir s)
        (.file (env.out "atropos" [some aF, some aR] (atroposTmpR tmpDir s))))
      (atroposLog qcRoot s)
        (.file (env.out "atropos" [some aF, some aR] (atroposLog qcRoot s))))
      (trimmedForward qcRoot trim s)
        (.file (env.out "atropos" [some aF, some aR] (atroposTmpF tmpDir s))))
      (atroposTmpR tmpDir s) =
      some (env.out "atropos" [some aF, some aR] (atroposTmpR tmpDir s)) := by
    rw [readFile, fsGet_set_ne _ _ htr_outF, fsGet_set_ne _ _ htr_log, fsGet_set_same]
  have s3 : runCmd env (fsSet (fsSet (fsSet (fsSet (fsSet fs tmpDir .dir)
      (atroposTmpF tmpDir s)
        (.file (env.out "atropos" [some aF, some aR] (atroposTmpF tmpDir s))))
      (atroposTmpR tmpDir s)
        (.file (env.out "atropos" [some aF, some aR] (atroposTmpR tmpDir s))))
      (atroposLog qcRoot s)
        (.file (env.out "atropos" [some aF, some aR] (atroposLog qcRoot s))))
      (trimmedForward qcRoot trim s)
        (.file (env.out "atropos" [some aF, some aR] (atroposTmpF tmpDir s))))
      (Cmd.scp (atroposTmpR tmpDir s) (trimmedReverse qcRoot trim s)) =
      (fsSet (fsSet (fsSet (fsSet (fsSet (fsSet fs tmpDir .dir)
        (atroposTmpF tmpDir s)
          (.file (env.out "atropos" [some aF, some aR] (atroposTmpF tmpDir s))))
        (atroposTmpR tmpDir s)
          (.file (env.out "atropos" [some aF, some aR] (atroposTmpR tmpDir s))))
        (atroposLog qcRoot s)
          (.file (env.out "atropos" [some aF, some aR] (atroposLog qcRoot s))))
        (trimmedForward qcRoot trim s)
          (.file (env.out "atropos" [some aF, some aR] (atroposTmpF tmpDir s))))
        (trimmedReverse qcRoot trim s)
          (.file (env.out "atropos" [some aF, some aR] (atroposTmpR tmpDir s))), none) := by
    simp only [runCmd, hread2]
  have hfinal : qcAtroposTask env qcRoot rawRoot trim s tmpDir fs =
      (rmTree (fsSet (fsSet (fsSet (fsSet (fsSet (fsSet fs tmpDir .dir)
        (atroposTmpF tmpDir s)
          (.file (env.out "atropos" [some aF, some aR] (atroposTmpF tmpDir s))))
        (atroposTmpR tmpDir s)
          (.file (env.out "atropos" [some aF, some aR] (atroposTmpR tmpDir s))))
        (atroposLog qcRoot s)
          (.file (env.out "atropos" [some aF, some aR] (atroposLog qcRoot s))))
        (trimmedForward qcRoot trim s)
          (.file (env.out "atropos" [some aF, some aR] (atroposTmpF tmpDir s))))
        (trimmedReverse qcRoot trim s)
          (.file (env.out "atropos" [some aF, some aR] (atroposTmpR tmpDir s)))) tmpDir,
        none) := by
    unfold qcAtroposTask withTmp
    rw [show atroposCmds qcRoot rawRoot trim s tmpDir =
      Cmd.toolRun "atropos" [rawForward rawRoot s, rawReverse rawRoot s]
        [atroposTmpF tmpDir s, atroposTmpR tmpDir s, atroposLog qcRoot s] ::
      Cmd.scp (atroposTmpF tmpDir s) (trimmedForward qcRoot trim s) ::
      Cmd.scp (atroposTmpR tmpDir s) (trimmedReverse qcRoot trim s) :: [] from rfl]
    rw [runCmds_cons_ok s1, runCmds_cons_ok s2, runCmds_cons_ok s3]
    rfl
  have hrawF_tf : rawForward rawRoot s ≠ atroposTmpF tmpDir s :=
    fun he => ne_of_prefixOf_false p1 [s ++ ".trimmed.R1.fastq.gz"] he.symm
  have hrawF_tr : rawForward rawRoot s ≠ atroposTmpR tmpDir s :=
    fun he => ne_of_prefixOf_false p1 [s ++ ".trimmed.R2.fastq.gz"] he.symm
  have hrawR_tf : rawReverse rawRoot s ≠ atroposTmpF tmpDir s :=
    fun he => ne_of_prefixOf_false p2 [s ++ ".trimmed.R1.fastq.gz"] he.symm
  have hrawR_tr : rawReverse rawRoot s ≠ atroposTmpR tmpDir s :=
    fun he => ne_of_prefixOf_false p2 [s ++ ".trimmed.R2.fastq.gz"] he.symm
  rw [hfinal]
  refine ⟨rfl, ?_, ?_, ?_, ?_⟩
  · rw [fsGet_rmTree_of_not_under p3,
      fsGet_set_ne _ _ (trimmedForward_ne_trimmedReverse qcRoot trim s), fsGet_set_same]
  · rw [fsGet_rmTree_of_not_under p4, fsGet_set_same]
  · rw [fsGet_rmTree_of_not_under p1, fsGet_set_ne _ _ n2, fsGet_set_ne _ _ n1,
      fsGet_set_ne _ _ n3, fsGet_set_ne _ _ hrawF_tr, fsGet_set_ne _ _ hrawF_tf,
      fsGet_set_ne _ _ (fun he => prefixOfFalse_ne_root p1 he.symm), hrf]
  · rw [fsGet_rmTree_of_not_under p2, fsGet_set_ne _ _ n5, fsGet_set_ne _ _ n4,
      fsGet_set_ne _ _ n6, fsGet_set_ne _ _ hrawR_tr, fsGet_set_ne _ _ hrawR_tf,
      fsGet_set_ne _ _ (fun he => prefixOfFalse_ne_root p2 he.symm), hrr]

theorem multiqcReport_ne_multiqcLog (qcRoot : Path) :
    multiqcReport qcRoot ≠ multiqcLog qcRoot :=
  path_ne_of_comp (by decide)

/-- Counterexample to C5 as stated: with the correct pass-through outputs
already present (links to the unchanged trimmed inputs), re-running the
pass-through branch of qc_filter fails: ln -s without -f refuses the
existing destination, and strict mode aborts the block. -/
theorem claim_C5_counterexample :
    (runCmds ⟨fun _ _ _ => "", fun _ _ => true, fun _ _ _ => "", fun _ _ => true⟩
        (qcFilterPassCmds ["qc"] "atropos" "S1")
        [(filteredForward ["qc"] "S1", .symlink (trimmedForward ["qc"] "atropos" "S1")),
         (filteredReverse ["qc"] "S1", .symlink (trimmedReverse ["qc"] "atropos" "S1")),
         (trimmedForward ["qc"] "atropos" "S1", .file "R1BYTES"),
         (trimmedReverse ["qc"] "atropos" "S1", .file "R2BYTES")]).2 ≠ none ∧
      (runCmds ⟨fun _ _ _ => "", fun _ _ => true, fun _ _ _ => "", fun _ _ => true⟩
        (qcFilterPassCmds ["qc"] "atropos" "S1")
        [(filteredForward ["qc"] "S1", .symlink (trimmedForward ["qc"] "atropos" "S1")),
         (filteredReverse ["qc"] "S1", .symlink (trimmedReverse ["qc"] "atropos" "S1")),
         (trimmedForward ["qc"] "atropos" "S1", .file "R1BYTES"),
         (trimmedReverse ["qc"] "atropos" "S1", .file "R2BYTES")]).1 =
        [(filteredForward ["qc"] "S1", .symlink (trimmedForward ["qc"] "atropos" "S1")),
         (filteredReverse ["qc"] "S1", .symlink (trimmedReverse ["qc"] "atropos" "S1")),
         (trimmedForward ["qc"] "atropos" "S1", .file "R1BYTES"),
         (trimmedReverse ["qc"] "atropos" "S1", .file "R2BYTES")] := by
  constructor
  · decide
  · decide

/-- C5 amended: re-running a task with its outputs present behaves by each
command's overwrite semantics.  (i) The pass-through branch of qc_filter
fails on any filesystem where its forward output already exists, leaving
the filesystem unmodified (no spurious mutation, but the rerun does not
succeed).  (ii) qc_atropos rerun on its own result succeeds and reproduces
identical output contents from the unchanged raw inputs (scp overwrites).
(iii) qc_per_sample_multiqc (multiqc -f) rerun succeeds whether or not the
report exists, and the report it writes is a deterministic function of the
scanned report/log tree. -/
theorem claim_C5_amended (env : ToolEnv) (qcRoot rawRoot tmpDir : Path) (trim s : String)
    (samples : List String) (fs : FS) (aF aR : String)
    (hrf : fsGet fs (rawForward rawRoot s) = some (.file aF))
    (hrr : fsGet fs (rawReverse rawRoot s) = some (.file aR))
    (hex : env.exitOk "atropos" [some aF, some aR] = true)
    (p1 : tmpDir.isPrefixOf (rawForward rawRoot s) = false)
    (p2 : tmpDir.isPrefixOf (rawReverse rawRoot s) = false)
    (p3 : tmpDir.isPrefixOf (trimmedForward qcRoot trim s) = false)
    (p4 : tmpDir.isPrefixOf (trimmedReverse qcRoot trim s) = false)
    (p5 : tmpDir.isPrefixOf (atroposLog qcRoot s) = false)
    (n1 : rawForward rawRoot s ≠ trimmedForward qcRoot trim s)
    (n2 : rawForward rawRoot s ≠ trimmedReverse qcRoot trim s)
    (n3 : rawForward rawRoot s ≠ atroposLog qcRoot s)
    (n4 : rawReverse rawRoot s ≠ trimmedForward qcRoot trim s)
    (n5 : rawReverse rawRoot s ≠ trimmedReverse qcRoot trim s)
    (n6 : rawReverse rawRoot s ≠ atroposLog qcRoot s) :
    (∀ fs2 : FS, ∀ n : FNode, fsGet fs2 (filteredForward qcRoot s) = some n →
      runCmds env (qcFilterPassCmds qcRoot trim s) fs2 =
        (fs2, some "ln: failed to create symbolic link: File exists")) ∧
      ((qcAtroposTask env qcRoot rawRoot trim s tmpDir
          (qcAtroposTask env qcRoot rawRoot trim s tmpDir fs).1).2 = none ∧
        fsGet (qcAtroposTask env qcRoot rawRoot trim s tmpDir
            (qcAtroposTask env qcRoot rawRoot trim s tmpDir fs).1).1
            (trimmedForward qcRoot trim s) =
          fsGet (qcAtroposTask env qcRoot rawRoot trim s tmpDir fs).1
            (trimmedForward qcRoot trim s) ∧
        fsGet (qcAtroposTask env qcRoot rawRoot trim s tmpDir
            (qcAtroposTask env qcRoot rawRoot trim s tmpDir fs).1).1
            (trimmedReverse qcRoot trim s) =
          fsGet (qcAtroposTask env qcRoot rawRoot trim s tmpDir fs).1
            (trimmedReverse qcRoot trim s)) ∧
      (∀ fs3 : FS,
        env.scanExitOk "multiqc" (fsScan fs3 (multiqcScanDirs qcRoot samples)) = true →
        (qcMultiqcTask env qcRoot samples fs3).2 = none ∧
          fsGet (qcMultiqcTask env qcRoot samples fs3).1 (multiqcReport qcRoot) =
            some (.file (env.scanOut "multiqc"
              (fsScan fs3 (multiqcScanDirs qcRoot samples)) (multiqcReport qcRoot)))) := by
  refine ⟨?_, ?_, ?_⟩
  · intro fs2 n h
    simp only [qcFilterPassCmds, runCmds, runCmd, h]
  · have h1 := atroposTask_spec env qcRoot rawRoot tmpDir trim s fs aF aR
      hrf hrr hex p1 p2 p3 p4 p5 n1 n2 n3 n4 n5 n6
    have h2 := atroposTask_spec env qcRoot rawRoot tmpDir trim s
      (qcAtroposTask env qcRoot rawRoot trim s tmpDir fs).1 aF aR
      h1.2.2.2.1 h1.2.2.2.2 hex p1 p2 p3 p4 p5 n1 n2 n3 n4 n5 n6
    refine ⟨h2.1, ?_, ?_⟩
    · rw [h2.2.1, h1.2.1]
    · rw [h2.2.2.1, h1.2.2.1]
  · intro fs3 hscan
    constructor
    · simp only [qcMultiqcTask, multiqcCmds, runCmds, runCmd, hscan, if_true,
        List.foldl_cons, List.foldl_nil]
    · simp only [qcMultiqcTask, multiqcCmds, runCmds, runCmd, hscan, if_true,
        List.foldl_cons, List.foldl_nil]
      rw [fsGet_set_ne _ _ (multiqcReport_ne_multiqcLog qcRoot), fsGet_set_same]

/-- Witness for C5 amended: at a concrete environment and filesystem, the
pass-through rerun fails with the filesystem unchanged while the atropos
rerun succeeds. -/
theorem claim_C5_witness :
    runCmds ⟨fun _ _ _ => "OUT", fun _ _ => true, fun _ _ _ => "REP", fun _ _ => true⟩
        (qcFilterPassCmds ["qc"] "atropos" "S1")
        [(filteredForward ["qc"] "S1", .file "X")] =
      ([(filteredForward ["qc"] "S1", .file "X")],
        some "ln: failed to create symbolic link: File exists") ∧
      (qcAtroposTask ⟨fun _ _ _ => "OUT", fun _ _ => true, fun _ _ _ => "REP", fun _ _ => true⟩
        ["qc"] ["raw"] "atropos" "S1" ["tmp", "t0"]
        (qcAtroposTask ⟨fun _ _ _ => "OUT", fun _ _ => true, fun _ _ _ => "REP", fun _ _ => true⟩
          ["qc"] ["raw"] "atropos" "S1" ["tmp", "t0"]
          [(rawForward ["raw"] "S1", .file "A"),
           (rawReverse ["raw"] "S1", .file "B")]).1).2 = none := by
  have h := claim_C5_amended
    ⟨fun _ _ _ => "OUT", fun _ _ => true, fun _ _ _ => "REP", fun _ _ => true⟩
    ["qc"] ["raw"] ["tmp", "t0"] "atropos" "S1" []
    [(rawForward ["raw"] "S1", .file "A"), (rawReverse ["raw"] "S1", .file "B")]
    "A" "B" (by decide) (by decide) (by decide)
    (by decide) (by decide) (by decide) (by decide) (by decide)
    (by decide) (by decide) (by decide) (by decide) (by decide) (by decide)
  exact ⟨h.1 [(filteredForward ["qc"] "S1", .file "X")] (.file "X") (by decide), h.2.1.1⟩

/-! ## Mate synchrony of the filtering pipe (claim C2) -/

theorem land4_of_land12 {n : Nat} (h : n &&& 12 = 12) : n &&& 4 = 4 := by
  have h4 : n &&& 12 &&& 4 = 12 &&& 4 := by rw [h]
  rw [Nat.land_assoc] at h4
  have e4 : (12 &&& 4 : Nat) = 4 := by decide
  rw [e4] at h4
  exact h4

theorem land8_of_land12 {n : Nat} (h : n &&& 12 = 12) : n &&& 8 = 8 := by
  have h8 : n &&& 12 &&& 8 = 12 &&& 8 := by rw [h]
  rw [Nat.land_assoc] at h8
  have e8 : (12 &&& 8 : Nat) = 8 := by decide
  rw [e8] at h8
  exact h8

theorem land12_of_land48 {n : Nat} (h4 : n &&& 4 = 4) (h8 : n &&& 8 = 8) :
    n &&& 12 = 12 := by
  have e : (4 ||| 8 : Nat) = 12 := by decide
  rw [← e, Nat.and_or_distrib_left, h4, h8]

theorem land256_cases (n : Nat) : n &&& 256 = 0 ∨ n &&& 256 = 256 := by
  have h := Nat.and_two_pow n 8
  norm_num at h
  cases hb : n.testBit 8 <;> rw [hb] at h <;> simp at h <;> omega

/-- The samtools view -f 12 -F 256 filter in terms of the three flag
predicates: keep iff read unmapped, mate unmapped and not secondary. -/
theorem samKeep_eq (r : SamRecord) :
    samKeep r = (readUnmapped r && mateUnmapped r && !(isSecondary r)) := by
  unfold samKeep readUnmapped mateUnmapped isSecondary
  apply Bool.coe_iff_coe.mp
  constructor
  · intro h
    rw [Bool.and_eq_true, beq_iff_eq, beq_iff_eq] at h
    obtain ⟨h12, h256⟩ := h
    simp [land4_of_land12 h12, land8_of_land12 h12, h256]
  · intro h
    rw [Bool.and_eq_true, Bool.and_eq_true] at h
    obtain ⟨⟨h4, h8⟩, hs⟩ := h
    rw [beq_iff_eq] at h4 h8
    have h12 := land12_of_land48 h4 h8
    have h256 : r.flag &&& 256 = 0 := by
      rcases land256_cases r.flag with h0 | h0
      · exact h0
      · rw [h0] at hs; simp at hs
    simp [h12, h256]

/-- Mate-consistent flags give the same keep decision for both mates. -/
theorem samKeep_mirror {p : SamRecord × SamRecord}
    (hf : readUnmapped p.1 = mateUnmapped p.2 ∧ readUnmapped p.2 = mateUnmapped p.1 ∧
      isSecondary p.1 = isSecondary p.2) :
    samKeep p.1 = samKeep p.2 := by
  rw [samKeep_eq, samKeep_eq, hf.1, ← hf.2.1, hf.2.2]
  congr 1
  exact Bool.and_comm _ _

/-- bowtie2 paired-end output: the two mates of each pair appear as
adjacent records of the alignment stream. -/
def bowtiePairsOut (pairs : List (SamRecord × SamRecord)) : List SamRecord :=
  pairs.flatMap (fun p => [p.1, p.2])

theorem mem_bowtiePairsOut {r : SamRecord} {pairs : List (SamRecord × SamRecord)} :
    r ∈ bowtiePairsOut pairs ↔ ∃ p ∈ pairs, r = p.1 ∨ r = p.2 := by
  simp [bowtiePairsOut, List.mem_flatMap]

/-- The flag filter keeps or drops the two mates of a pair together, so it
maps the paired stream to the paired stream of the kept pairs. -/
theorem view_bowtiePairsOut (pairs : List (SamRecord × SamRecord))
    (hc : ∀ p ∈ pairs, samKeep p.1 = samKeep p.2) :
    samtoolsView_f12_F256 (bowtiePairsOut pairs) =
      bowtiePairsOut (pairs.filter (fun p => samKeep p.1)) := by
  induction pairs with
  | nil => rfl
  | cons p t ih =>
    have hcp := hc p (List.mem_cons_self p t)
    have hct : ∀ q ∈ t, samKeep q.1 = samKeep q.2 :=
      fun q hq => hc q (List.mem_cons_of_mem p hq)
    cases hk : samKeep p.1
    · have hk2 : samKeep p.2 = false := by rw [← hcp]; exact hk
      rw [List.filter_cons, if_neg (by simp [hk])]
      show samtoolsView_f12_F256 ([p.1, p.2] ++ bowtiePairsOut t) = _
      rw [samtoolsView_f12_F256, List.filter_append]
      have hh : List.filter samKeep [p.1, p.2] = [] := by
        simp [List.filter_cons, hk, hk2]
      rw [hh, List.nil_append]
      exact ih hct
    · have hk2 : samKeep p.2 = true := by rw [← hcp]; exact hk
      rw [List.filter_cons, if_pos (by simp [hk])]
      show samtoolsView_f12_F256 ([p.1, p.2] ++ bowtiePairsOut t) =
        bowtiePairsOut ((p :: List.filter (fun p => samKeep p.1) t))
      rw [samtoolsView_f12_F256, List.filter_append]
      have hh : List.filter samKeep [p.1, p.2] = [p.1, p.2] := by
        simp [List.filter_cons, hk, hk2]
      rw [hh]
      show [p.1, p.2] ++ List.filter samKeep (bowtiePairsOut t) =
        [p.1, p.2] ++ bowtiePairsOut (List.filter (fun p => samKeep p.1) t)
      rw [show List.filter samKeep (bowtiePairsOut t) =
        samtoolsView_f12_F256 (bowtiePairsOut t) from rfl, ih hct]

/-- In the paired stream of name-distinct pairs, every pair's name counts
exactly two records. -/
theorem countP_bowtiePairsOut (pairs : List (SamRecord × SamRecord))
    (hq : ∀ p ∈ pairs, p.1.qname = p.2.qname)
    (hnd : List.Pairwise (fun p q => p.1.qname ≠ q.1.qname) pairs) :
    ∀ p ∈ pairs, (bowtiePairsOut pairs).countP (fun x => x.qname == p.1.qname) = 2 := by
  induction pairs with
  | nil => intro p hp; exact absurd hp (List.not_mem_nil p)
  | cons q t ih =>
    intro p hp
    have hqq := hq q (List.mem_cons_self q t)
    obtain ⟨hhead, htail⟩ := List.pairwise_cons.mp hnd
    have hqt : ∀ r ∈ t, r.1.qname = r.2.qname :=
      fun r hr => hq r (List.mem_cons_of_mem q hr)
    show ([q.1, q.2] ++ bowtiePairsOut t).countP (fun x => x.qname == p.1.qname) = 2
    rw [List.countP_append]
    rcases List.mem_cons.mp hp with hp | hp
    · subst hp
      have c1 : List.countP (fun x => x.qname == p.1.qname) [p.1, p.2] = 2 := by
        simp [List.countP_cons, hqq.symm]
      have c0 : (bowtiePairsOut t).countP (fun x => x.qname == p.1.qname) = 0 := by
        apply List.countP_eq_zero.mpr
        intro x hx
        simp only [bowtiePairsOut, List.mem_flatMap] at hx
        obtain ⟨r, hr, hxr⟩ := hx
        have hxq : x.qname = r.1.qname := by
          rcases List.mem_cons.mp hxr with h | h
          · rw [h]
          · have : x = r.2 := by simpa using h
            rw [this, ← hqt r hr]
        simp only [beq_iff_eq, hxq]
        exact fun he => (hhead r hr) he.symm
      rw [c1, c0]
    · have hne : q.1.qname ≠ p.1.qname := hhead p hp
      have c1 : List.countP (fun x => x.qname == p.1.qname) [q.1, q.2] = 0 := by
        apply List.countP_eq_zero.mpr
        intro x hx
        have hxq : x.qname = q.1.qname := by
          rcases List.mem_cons.mp hx with h | h
          · rw [h]
          · have : x = q.2 := by simpa using h
            rw [this, ← hqq]
        simp only [beq_iff_eq, hxq]
        exact hne
      rw [c1, ih hqt htail p hp]

/-- Pair extraction on a name-sorted stream in which every name counts
exactly two records: the two output streams have equal length, position i
of both holds records of the same name, and every output record comes from
the stream. -/
theorem bamtofastq_paired : ∀ l : List SamRecord, List.Pairwise nameLe l →
    (∀ r ∈ l, l.countP (fun x => x.qname == r.qname) = 2) →
    ((bamtofastq l).1.length = (bamtofastq l).2.length ∧
      ∀ i, ∀ h1 : i < (bamtofastq l).1.length, ∀ h2 : i < (bamtofastq l).2.length,
        ((bamtofastq l).1[i]).qname = ((bamtofastq l).2[i]).qname ∧
        (bamtofastq l).1[i] ∈ l ∧ (bamtofastq l).2[i] ∈ l) := by
  intro l
  induction l using bamtofastq.induct with
  | case1 =>
    intro _ _
    refine ⟨rfl, fun i h1 h2 => absurd h1 (by simp [bamtofastq])⟩
  | case2 a =>
    intro _ hcount
    have h := hcount a (by simp)
    have hle := List.countP_le_length (p := fun x => x.qname == a.qname) (l := [a])
    simp only [List.length_cons, List.length_nil] at hle
    omega
  | case3 a b rest heq ih =>
    intro hs hcount
    obtain ⟨ha, hs1⟩ := List.pairwise_cons.mp hs
    obtain ⟨hb, hrest⟩ := List.pairwise_cons.mp hs1
    have hca := hcount a (by simp)
    have hpa : ((a.qname == a.qname) : Bool) = true := by simp
    have hpb : ((b.qname == a.qname) : Bool) = true := by simp [heq]
    simp only [List.countP_cons, hpa, hpb, if_true] at hca
    have hrest0 : rest.countP (fun x => x.qname == a.qname) = 0 := by omega
    have hrest_count : ∀ r ∈ rest, rest.countP (fun x => x.qname == r.qname) = 2 := by
      intro r hr
      have h2 := hcount r (by simp [hr])
      have hrna : r.qname ≠ a.qname := by
        intro he
        have := List.countP_eq_zero.mp hrest0 r hr
        simp [he] at this
      have hrnb : r.qname ≠ b.qname := fun he => hrna (he.trans heq.symm)
      have hqa : ((a.qname == r.qname) : Bool) = false := by
        simp; exact fun he => hrna he.symm
      have hqb : ((b.qname == r.qname) : Bool) = false := by
        simp; exact fun he => hrnb he.symm
      simp only [List.countP_cons, hqa, hqb, if_false] at h2
      simpa using h2
    have ih2 := ih hrest hrest_count
    simp only [bamtofastq, if_pos heq]
    constructor
    · simp [ih2.1]
    · intro i h1 h2
      cases i with
      | zero =>
        refine ⟨heq, by simp, by simp⟩
      | succ j =>
        simp only [List.getElem_cons_succ]
        simp only [List.length_cons] at h1 h2
        have hj1 : j < (bamtofastq rest).1.length := by omega
        have hj2 : j < (bamtofastq rest).2.length := by omega
        obtain ⟨hn, hm1, hm2⟩ := ih2.2 j hj1 hj2
        exact ⟨hn, by simp [hm1], by simp [hm2]⟩
  | case4 a b rest hne ih =>
    intro hs hcount
    exfalso
    obtain ⟨ha, hs1⟩ := List.pairwise_cons.mp hs
    obtain ⟨hb, _⟩ := List.pairwise_cons.mp hs1
    have hca := hcount a (by simp)
    have hpa : ((a.qname == a.qname) : Bool) = true := by simp
    cases hqb : ((b.qname == a.qname) : Bool)
    · simp [List.countP_cons, hpa, hqb] at hca
      have hc1 : 0 < rest.countP (fun x => x.qname == a.qname) := by omega
      obtain ⟨c, hcr, hpc⟩ := List.countP_pos_iff.mp hc1
      rw [beq_iff_eq] at hpc
      have h1 : nameLe a b := ha b (by simp)
      have h2 : nameLe b c := hb c hcr
      rw [nameLe, hpc] at h2
      have h3 : a.qname.data = b.qname.data := le_antisymm h1 h2
      exact hne (String.ext h3)
    · rw [beq_iff_eq] at hqb
      exact hne hqb.symm

/-- C2: for a sample processed through the filtering branch, given the
well-formedness of the aligner's paired output (the two mates of each pair
are emitted with the same read name, with mirrored unmapped flags and equal
secondary flags, and pair names are distinct), the two output streams of
the pipe have the same length and the records at each position i are the
two mates of one input pair — guaranteed by the name sort before pair
extraction. -/
theorem claim_C2_mate_synchrony (pairs : List (SamRecord × SamRecord))
    (hq : ∀ p ∈ pairs, p.1.qname = p.2.qname)
    (hf : ∀ p ∈ pairs, readUnmapped p.1 = mateUnmapped p.2 ∧
      readUnmapped p.2 = mateUnmapped p.1 ∧ isSecondary p.1 = isSecondary p.2)
    (hnd : List.Pairwise (fun p q => p.1.qname ≠ q.1.qname) pairs) :
    (qcFilterPipe (bowtiePairsOut pairs)).1.length =
        (qcFilterPipe (bowtiePairsOut pairs)).2.length ∧
      ∀ i, ∀ h1 : i < (qcFilterPipe (bowtiePairsOut pairs)).1.length,
        ∀ h2 : i < (qcFilterPipe (bowtiePairsOut pairs)).2.length,
        ((qcFilterPipe (bowtiePairsOut pairs)).1[i]).qname =
          ((qcFilterPipe (bowtiePairsOut pairs)).2[i]).qname ∧
        ∃ p ∈ pairs,
          ((qcFilterPipe (bowtiePairsOut pairs)).1[i] = p.1 ∨
            (qcFilterPipe (bowtiePairsOut pairs)).1[i] = p.2) ∧
          ((qcFilterPipe (bowtiePairsOut pairs)).2[i] = p.1 ∨
            (qcFilterPipe (bowtiePairsOut pairs)).2[i] = p.2) := by
  have hc : ∀ p ∈ pairs, samKeep p.1 = samKeep p.2 := fun p hp => samKeep_mirror (hf p hp)
  have hview : samtoolsView_f12_F256 (bowtiePairsOut pairs) =
      bowtiePairsOut (pairs.filter (fun p => samKeep p.1)) :=
    view_bowtiePairsOut pairs hc
  have hqk : ∀ p ∈ pairs.filter (fun p => samKeep p.1), p.1.qname = p.2.qname :=
    fun p hp => hq p (List.mem_of_mem_filter hp)
  have hndk : List.Pairwise (fun p q => p.1.qname ≠ q.1.qname)
      (pairs.filter (fun p => samKeep p.1)) :=
    List.Pairwise.filter _ hnd
  have hcount_flat := countP_bowtiePairsOut (pairs.filter (fun p => samKeep p.1)) hqk hndk
  have hperm : (samtoolsSortN (bowtiePairsOut (pairs.filter (fun p => samKeep p.1)))).Perm
      (bowtiePairsOut (pairs.filter (fun p => samKeep p.1))) := samtoolsSortN_perm _
  have hsorted : List.Pairwise nameLe
      (samtoolsSortN (bowtiePairsOut (pairs.filter (fun p => samKeep p.1)))) :=
    List.sorted_insertionSort nameLe _
  have hcount_srt : ∀ r ∈ samtoolsSortN (bowtiePairsOut (pairs.filter (fun p => samKeep p.1))),
      (samtoolsSortN (bowtiePairsOut (pairs.filter (fun p => samKeep p.1)))).countP
        (fun x => x.qname == r.qname) = 2 := by
    intro r hr
    obtain ⟨p, hp, hrp⟩ := mem_bowtiePairsOut.mp (hperm.mem_iff.mp hr)
    have hrq : r.qname = p.1.qname := by
      rcases hrp with h | h
      · rw [h]
      · rw [h, ← hqk p hp]
    rw [hperm.countP_eq]
    simp only [hrq]
    exact hcount_flat p hp
  have hpaired := bamtofastq_paired _ hsorted hcount_srt
  have hpipe : qcFilterPipe (bowtiePairsOut pairs) =
      bamtofastq (samtoolsSortN (bowtiePairsOut (pairs.filter (fun p => samKeep p.1)))) := by
    rw [qcFilterPipe, hview]
  rw [hpipe]
  refine ⟨hpaired.1, ?_⟩
  intro i h1 h2
  obtain ⟨hname, hm1, hm2⟩ := hpaired.2 i h1 h2
  refine ⟨hname, ?_⟩
  obtain ⟨p, hp, hp1⟩ := mem_bowtiePairsOut.mp (hperm.mem_iff.mp hm1)
  obtain ⟨p2, hp2m, hp2⟩ := mem_bowtiePairsOut.mp (hperm.mem_iff.mp hm2)
  have hq1 : ((bamtofastq (samtoolsSortN (bowtiePairsOut
      (pairs.filter (fun p => samKeep p.1))))).1[i]).qname = p.1.qname := by
    rcases hp1 with h | h
    · rw [h]
    · rw [h, ← hqk p hp]
  have hq2 : ((bamtofastq (samtoolsSortN (bowtiePairsOut
      (pairs.filter (fun p => samKeep p.1))))).2[i]).qname = p2.1.qname := by
    rcases hp2 with h | h
    · rw [h]
    · rw [h, ← hqk p2 hp2m]
  have hpp : p = p2 := by
    by_contra hpe
    have hsym : Symmetric (fun p q : SamRecord × SamRecord => p.1.qname ≠ q.1.qname) :=
      fun _ _ h => h.symm
    have hR := hndk.forall hsym hp hp2m hpe
    apply hR
    rw [← hq1, hname, hq2]
  subst hpp
  exact ⟨p, List.mem_of_mem_filter hp, hp1, hp2⟩

/-- Witness for C2 at a concrete aligner output of two pairs (one fully
unmapped, one mapped): the two filtered streams have equal length. -/
theorem claim_C2_witness :
    (qcFilterPipe (bowtiePairsOut
        [(⟨"p1", 77, "aa"⟩, ⟨"p1", 141, "bb"⟩),
         (⟨"p2", 99, "cc"⟩, ⟨"p2", 147, "dd"⟩)])).1.length =
      (qcFilterPipe (bowtiePairsOut
        [(⟨"p1", 77, "aa"⟩, ⟨"p1", 141, "bb"⟩),
         (⟨"p2", 99, "cc"⟩, ⟨"p2", 147, "dd"⟩)])).2.length :=
  (claim_C2_mate_synchrony
    [(⟨"p1", 77, "aa"⟩, ⟨"p1", 141, "bb"⟩),
     (⟨"p2", 99, "cc"⟩, ⟨"p2", 147, "dd"⟩)]
    (by decide) (by decide) (by decide)).1

end Oecophylla
